import Mathlib

/-!
# TraceIC chaincode (`chaincode/traceic/go/fabcar.go`)

A shallow embedding of the TraceIC smart contract and proofs of the
properties its specification states.

Modelling conventions.

* Go `string` and `[]byte` values are byte sequences (`Bytes`); a `nil` byte
  slice is the empty sequence.  The arguments of a call are bytes the client
  chose, so they need not be valid UTF-8.  A string literal of the source is
  written `utf8 "..."`.  Only error messages, which the contract never
  inspects, and the names of certificate attributes, which the source gives as
  literals, are kept as Lean strings.
* The ledger (`shim.ChaincodeStubInterface`) and the caller identity
  (`cid`) are external collaborators of the contract.  They are modelled by the
  record `Stub`: the world state, the identity of the caller, and, for every
  store call, the error it reports (if any).  Handlers take the stub and return
  the response together with the stub after the call.
* Printing (`fmt.Println`) has no effect on results and is left out.
-/

namespace TraceIC

/-! ## Bytes -/

/-- One byte. -/
abbrev Byte := Fin 256

/-- A Go string or byte slice. -/
abbrev Bytes := List Byte

/-- The UTF-8 encoding of a code point (`utf8.EncodeRune` on a valid rune). -/
def encodeRune (n : Nat) : Bytes :=
  if n < 0x80 then [Fin.ofNat n]
  else if n < 0x800 then [Fin.ofNat (0xC0 + n / 64), Fin.ofNat (0x80 + n % 64)]
  else if n < 0x10000 then
    [Fin.ofNat (0xE0 + n / 4096), Fin.ofNat (0x80 + n / 64 % 64), Fin.ofNat (0x80 + n % 64)]
  else
    [Fin.ofNat (0xF0 + n / 262144), Fin.ofNat (0x80 + n / 4096 % 64),
      Fin.ofNat (0x80 + n / 64 % 64), Fin.ofNat (0x80 + n % 64)]

/-- The bytes of a string literal: the UTF-8 encoding of its characters. -/
def utf8 (s : String) : Bytes := s.data.flatMap (fun c => encodeRune c.toNat)

/-! ## World state -/

/-- The order of the ledger's keys: byte-wise lexicographic. -/
def keyLt (a b : Bytes) : Prop := List.Lex (fun x y : Byte => x < y) a b

instance keyLtDecidable : DecidableRel keyLt :=
  fun a b => inferInstanceAs (Decidable (List.Lex (fun x y : Byte => x < y) a b))

/-- Ordered insertion of a key/value pair into a key-sorted association list;
an existing pair with the same key is replaced. -/
def insertEntry (k v : Bytes) : List (Bytes × Bytes) → List (Bytes × Bytes)
  | [] => [(k, v)]
  | (k', v') :: rest =>
    if keyLt k k' then (k, v) :: (k', v') :: rest
    else if k = k' then (k, v) :: rest
    else (k', v') :: insertEntry k v rest

/-- Lookup of a key in an association list (first match). -/
def lookupEntry (k : Bytes) : List (Bytes × Bytes) → Option Bytes
  | [] => none
  | (k', v') :: rest => if k = k' then some v' else lookupEntry k rest

/-- The world state of the ledger: finitely many key/value pairs, kept in
ascending key order (the order in which the ledger delivers range scans) with
no key stored twice. -/
structure Ledger where
  entries : List (Bytes × Bytes)
  sorted : entries.Pairwise (fun a b => keyLt a.1 b.1)

namespace Ledger

/-- The ledger holding nothing. -/
def empty : Ledger := ⟨[], List.Pairwise.nil⟩

/-- Value stored under a key, if any. -/
def get (l : Ledger) (k : Bytes) : Option Bytes := lookupEntry k l.entries

/-- Write a value under a key, replacing what was stored there. -/
def put (l : Ledger) (k v : Bytes) : Ledger where
  entries := insertEntry k v l.entries
  sorted := by
    have mem : ∀ (t : List (Bytes × Bytes)) (p : Bytes × Bytes),
        p ∈ insertEntry k v t → p.1 = k ∨ p ∈ t := by
      intro t
      induction t with
      | nil =>
        intro p hp
        simp only [insertEntry, List.mem_singleton] at hp
        exact Or.inl (by rw [hp])
      | cons hd tl ih =>
        intro p hp
        simp only [insertEntry] at hp
        split_ifs at hp with h1 h2
        · rcases List.mem_cons.1 hp with h | h
          · exact Or.inl (by rw [h])
          · exact Or.inr h
        · rcases List.mem_cons.1 hp with h | h
          · exact Or.inl (by rw [h])
          · exact Or.inr (List.mem_cons_of_mem _ h)
        · rcases List.mem_cons.1 hp with h | h
          · exact Or.inr (by rw [h]; exact List.mem_cons_self _ _)
          · rcases ih p h with h | h
            · exact Or.inl h
            · exact Or.inr (List.mem_cons_of_mem _ h)
    have key : ∀ t : List (Bytes × Bytes), t.Pairwise (fun a b => keyLt a.1 b.1) →
        (insertEntry k v t).Pairwise (fun a b => keyLt a.1 b.1) := by
      intro t
      induction t with
      | nil => intro _; simp [insertEntry]
      | cons hd tl ih =>
        intro ht
        rw [List.pairwise_cons] at ht
        simp only [insertEntry]
        split_ifs with h1 h2
        · refine List.pairwise_cons.2 ⟨?_, List.pairwise_cons.2 ht⟩
          intro p hp
          rcases List.mem_cons.1 hp with h | h
          · rw [h]; exact h1
          · exact IsTrans.trans (r := List.Lex (fun x y : Byte => x < y)) _ _ _ h1 (ht.1 p h)
        · refine List.pairwise_cons.2 ⟨?_, ht.2⟩
          intro p hp
          rw [h2]; exact ht.1 p hp
        · refine List.pairwise_cons.2 ⟨?_, ih ht.2⟩
          intro p hp
          rcases mem tl p hp with h | h
          · rw [h]
            rcases trichotomous_of (List.Lex (fun x y : Byte => x < y)) k hd.1
              with h3 | h3 | h3
            · exact absurd h3 h1
            · exact absurd h3 h2
            · exact h3
          · exact ht.1 p h
    exact key l.entries l.sorted

/-- The pairs whose key lies in `[startKey, endKey)`, in ascending key order;
an empty `endKey` leaves the range open at the top. -/
def range (l : Ledger) (startKey endKey : Bytes) : List (Bytes × Bytes) :=
  l.entries.filter (fun kv =>
    !decide (keyLt kv.1 startKey) && (endKey.isEmpty || decide (keyLt kv.1 endKey)))

end Ledger

/-! ## Caller identity and chaincode stub -/

/-- What the client-identity library (`cid`) reports about the caller: the MSP
id of its organisation, its unique id, and the values of its certificate
attributes; each query may fail with an error. -/
structure ClientIdentity where
  mspid : Except String Bytes
  id : Except String Bytes
  attrs : String → Except String (Option Bytes)

/-- The chaincode stub of one invocation: the world state, the caller, and the
errors the store reports.  `getFault k` is the error of `GetState k`,
`putFault k v` the error of `PutState k v`, `rangeFault a b` the error of
`GetStateByRange a b`, and `nextFault i` the error of the `i`-th `Next` of a
range iterator (`none`: no error). -/
structure Stub where
  ledger : Ledger
  creator : ClientIdentity
  getFault : Bytes → Option String
  putFault : Bytes → Bytes → Option String
  rangeFault : Bytes → Bytes → Option String
  nextFault : Nat → Option String

/-- The response of a handler: `shim.Success payload` or `shim.Error message`. -/
inductive Response
  | success (payload : Bytes)
  | error (message : String)
  deriving DecidableEq, Repr

/-- Stub call `GetState`: the stored bytes (`nil` when the key is absent or the
call fails) and the error. -/
def GetState (stub : Stub) (key : Bytes) : Bytes × Option String :=
  match stub.getFault key with
  | some e => ([], some e)
  | none => ((stub.ledger.get key).getD [], none)

/-- Stub call `PutState`: the error, and the stub after the call; a failed put
writes nothing. -/
def PutState (stub : Stub) (key value : Bytes) : Option String × Stub :=
  match stub.putFault key value with
  | some e => (some e, stub)
  | none => (none, { stub with ledger := stub.ledger.put key value })

/-- One step of a range iterator: the outcome of each `Next`, in order. -/
def iteratorSteps (nextFault : Nat → Option String) :
    Nat → List (Bytes × Bytes) → List (Except String (Bytes × Bytes))
  | _, [] => []
  | i, kv :: rest =>
    (match nextFault i with
      | some e => Except.error e
      | none => Except.ok kv) :: iteratorSteps nextFault (i + 1) rest

/-- Stub call `GetStateByRange`: an error, or the iterator, given as the list of
the outcomes of its successive `Next` calls (`HasNext` holds while the list is
not exhausted). -/
def GetStateByRange (stub : Stub) (startKey endKey : Bytes) :
    Except String (List (Except String (Bytes × Bytes))) :=
  match stub.rangeFault startKey endKey with
  | some e => Except.error e
  | none => Except.ok (iteratorSteps stub.nextFault 0 (stub.ledger.range startKey endKey))

/-- Library call `cid.GetMSPID`. -/
def GetMSPID (stub : Stub) : Except String Bytes := stub.creator.mspid

/-- Library call `cid.GetID`. -/
def GetID (stub : Stub) : Except String Bytes := stub.creator.id

/-- Library call `cid.GetAttributeValue`: the value (empty when the attribute is
absent) and whether it was found, or an error. -/
def GetAttributeValue (stub : Stub) (attrName : String) : Except String (Bytes × Bool) :=
  match stub.creator.attrs attrName with
  | Except.error e => Except.error e
  | Except.ok none => Except.ok ([], false)
  | Except.ok (some v) => Except.ok (v, true)

/-- Library call `cid.AssertAttributeValue`: `none` when the caller has the
attribute with exactly the given value, an error otherwise.  The contract uses
only whether there is an error, so the message leaves the value out. -/
def AssertAttributeValue (stub : Stub) (attrName : String) (attrValue : Bytes) :
    Option String :=
  match GetAttributeValue stub attrName with
  | Except.error e => some e
  | Except.ok (val, found) =>
    if !found then some ("Attribute '" ++ attrName ++ "' was not found")
    else if val != attrValue then
      some ("Attribute '" ++ attrName ++ "' does not have the expected value")
    else none

/-! ## Records and their JSON encoding (`encoding/json`)

The contract encodes records with `json.Marshal` and decodes them with
`json.Unmarshal` of the Go standard library.  Both are modelled here as that
library documents them.

The encoder writes the tagged fields in declaration order.  In a string it
escapes quotes, backslashes, control characters, `<`, `>`, `&`, U+2028 and
U+2029, and for every byte that is not part of a valid UTF-8 encoding it writes
the escape of U+FFFD (a backslash followed by `ufffd`).  Backspace and form
feed are written as `\b` and `\f`, as current releases of the library do;
older releases wrote `\u0008` and `\u000c`, and the decoder reads both.

The decoder accepts one well-formed JSON text, matches object keys to field
tags exactly or up to letter case, stores string values, skips `null`, values
of other kinds and unknown keys, and leaves the record untouched when the text
is malformed.  In a string it replaces every byte that is not part of a valid
UTF-8 encoding, and every unpaired surrogate escape, by the encoding of
U+FFFD, so every string it stores is valid UTF-8. -/

/-- The record `IC` of the contract; the field `Type` of the source is `Type_`
here.  Its JSON keys are `identifier`, `type`, `crp` and `owner`. -/
structure IC where
  Identifier : Bytes
  Type_ : Bytes
  CRP : Bytes
  Owner : Bytes
  deriving DecidableEq, Repr

/-- The zero value `IC{}`. -/
def IC.zero : IC := ⟨[], [], [], []⟩

/-- Whether a byte is a UTF-8 continuation byte. -/
def isCont (b : Byte) : Prop := 0x80 ≤ b.val ∧ b.val ≤ 0xBF

instance isContDecidable (b : Byte) : Decidable (isCont b) :=
  inferInstanceAs (Decidable (0x80 ≤ b.val ∧ b.val ≤ 0xBF))

/-- Whether two bytes are the encoding of a code point in U+0080..U+07FF. -/
def isRune2 (b0 b1 : Byte) : Prop := 0xC2 ≤ b0.val ∧ b0.val ≤ 0xDF ∧ isCont b1

instance isRune2Decidable (b0 b1 : Byte) : Decidable (isRune2 b0 b1) :=
  inferInstanceAs (Decidable (0xC2 ≤ b0.val ∧ b0.val ≤ 0xDF ∧ isCont b1))

/-- Whether three bytes are the encoding of a code point in U+0800..U+FFFF that
is not a surrogate. -/
def isRune3 (b0 b1 b2 : Byte) : Prop :=
  ((b0.val = 0xE0 ∧ 0xA0 ≤ b1.val ∧ b1.val ≤ 0xBF) ∨
    (0xE1 ≤ b0.val ∧ b0.val ≤ 0xEC ∧ isCont b1) ∨
    (b0.val = 0xED ∧ 0x80 ≤ b1.val ∧ b1.val ≤ 0x9F) ∨
    (0xEE ≤ b0.val ∧ b0.val ≤ 0xEF ∧ isCont b1)) ∧ isCont b2

instance isRune3Decidable (b0 b1 b2 : Byte) : Decidable (isRune3 b0 b1 b2) :=
  inferInstanceAs (Decidable ((_ ∨ _ ∨ _ ∨ _) ∧ _))

/-- Whether four bytes are the encoding of a code point in U+10000..U+10FFFF. -/
def isRune4 (b0 b1 b2 b3 : Byte) : Prop :=
  ((b0.val = 0xF0 ∧ 0x90 ≤ b1.val ∧ b1.val ≤ 0xBF) ∨
    (0xF1 ≤ b0.val ∧ b0.val ≤ 0xF3 ∧ isCont b1) ∨
    (b0.val = 0xF4 ∧ 0x80 ≤ b1.val ∧ b1.val ≤ 0x8F)) ∧ isCont b2 ∧ isCont b3

instance isRune4Decidable (b0 b1 b2 b3 : Byte) : Decidable (isRune4 b0 b1 b2 b3) :=
  inferInstanceAs (Decidable ((_ ∨ _ ∨ _) ∧ _ ∧ _))

/-- The valid multi-byte UTF-8 encoding at the head of the input, if there is
one, and the input after it (`utf8.DecodeRune` returning a size above 1). -/
def runeAt : Bytes → Option (Bytes × Bytes)
  | [] => none
  | b0 :: rest0 =>
    match rest0 with
    | [] => none
    | b1 :: rest1 =>
      if isRune2 b0 b1 then some ([b0, b1], rest1)
      else
        match rest1 with
        | [] => none
        | b2 :: rest2 =>
          if isRune3 b0 b1 b2 then some ([b0, b1, b2], rest2)
          else
            match rest2 with
            | [] => none
            | b3 :: rest3 =>
              if isRune4 b0 b1 b2 b3 then some ([b0, b1, b2, b3], rest3) else none

/-- The next unit of a byte string as the UTF-8 decoder sees it: an ASCII byte
or a valid multi-byte encoding, kept as it is, or a byte that belongs to no
valid encoding, replaced by the encoding of U+FFFD; with the input after it. -/
def coerceStep : Bytes → Option (Bytes × Bytes)
  | [] => none
  | b :: rest =>
    if b.val < 0x80 then some ([b], rest)
    else
      match runeAt (b :: rest) with
      | none => some ([0xEF, 0xBF, 0xBD], rest)
      | some (rune, rest1) => some (rune, rest1)

/-- Coercion to valid UTF-8, one unit per unit of fuel. -/
def toValidUTF8Fuel : Nat → Bytes → Bytes
  | 0, _ => []
  | fuel + 1, s =>
    match coerceStep s with
    | none => []
    | some (unit, rest) => unit ++ toValidUTF8Fuel fuel rest

/-- The byte string with every byte that is not part of a valid UTF-8 encoding
replaced by the encoding of U+FFFD. -/
def toValidUTF8 (s : Bytes) : Bytes := toValidUTF8Fuel s.length s

/-- Validity as UTF-8, one unit per unit of fuel. -/
def validUTF8Fuel : Nat → Bytes → Bool
  | 0, s => s.isEmpty
  | fuel + 1, s =>
    match s with
    | [] => true
    | b :: rest =>
      if b.val < 0x80 then validUTF8Fuel fuel rest
      else
        match runeAt (b :: rest) with
        | none => false
        | some (_, rest1) => validUTF8Fuel fuel rest1

/-- Whether a byte string is valid UTF-8 (`utf8.Valid`). -/
def validUTF8 (s : Bytes) : Bool := validUTF8Fuel s.length s

/-- The `n`-th lower-case hexadecimal digit. -/
def hexDigit (n : Nat) : Byte := (utf8 "0123456789abcdef").getD n 0x30

/-- The escape `\uXXXX` of a code point below `0x10000`. -/
def unicodeEscape (n : Nat) : Bytes :=
  [0x5C, 0x75, hexDigit (n / 4096 % 16), hexDigit (n / 256 % 16), hexDigit (n / 16 % 16),
    hexDigit (n % 16)]

/-- Encoding by `json.Marshal` of one ASCII byte of a string: quote and
backslash after a backslash, the short escapes of backspace, form feed, line
feed, carriage return and tab, `\u00XX` for the other control characters and
for `<`, `>` and `&` (HTML escaping is on by default), and the byte itself
otherwise. -/
def escapeByte (b : Byte) : Bytes :=
  if b = 0x22 then [0x5C, 0x22]
  else if b = 0x5C then [0x5C, 0x5C]
  else if b = 0x08 then [0x5C, 0x62]
  else if b = 0x0C then [0x5C, 0x66]
  else if b = 0x0A then [0x5C, 0x6E]
  else if b = 0x0D then [0x5C, 0x72]
  else if b = 0x09 then [0x5C, 0x74]
  else if b.val < 0x20 ∨ b = 0x3C ∨ b = 0x3E ∨ b = 0x26 then unicodeEscape b.val
  else [b]

/-- One step of the string encoder of `json.Marshal`: the text written for the
next unit of the input, and the input after it.  A byte that belongs to no
valid UTF-8 encoding is written as the escape of U+FFFD, the line separators
U+2028 and U+2029 as their escapes, every other multi-byte encoding as it
is. -/
def escapeStep : Bytes → Option (Bytes × Bytes)
  | [] => none
  | b :: rest =>
    if b.val < 0x80 then some (escapeByte b, rest)
    else
      match runeAt (b :: rest) with
      | none => some (unicodeEscape 0xFFFD, rest)
      | some (rune, rest1) =>
        if rune = [0xE2, 0x80, 0xA8] then some (unicodeEscape 0x2028, rest1)
        else if rune = [0xE2, 0x80, 0xA9] then some (unicodeEscape 0x2029, rest1)
        else some (rune, rest1)

/-- The string encoder, one unit per unit of fuel. -/
def escapeFuel : Nat → Bytes → Bytes
  | 0, _ => []
  | fuel + 1, s =>
    match escapeStep s with
    | none => []
    | some (text, rest) => text ++ escapeFuel fuel rest

/-- The text of a string between the quotes of its JSON encoding; every step
consumes input, so the length of the input is fuel enough. -/
def escapeBytes (s : Bytes) : Bytes := escapeFuel s.length s

/-- Encoding by `json.Marshal` of a string: its escaped text in double
quotes. -/
def encodeString (s : Bytes) : Bytes :=
  0x22 :: (escapeBytes s ++ [0x22])

/-- Library call `json.Marshal` on an `IC`: an object with the four fields in
declaration order, keyed by their struct tags. -/
def jsonMarshal (ic : IC) : Bytes :=
  utf8 "\x7b\"identifier\":" ++ encodeString ic.Identifier ++
    (utf8 ",\"type\":" ++ encodeString ic.Type_ ++
    (utf8 ",\"crp\":" ++ encodeString ic.CRP ++
    (utf8 ",\"owner\":" ++ encodeString ic.Owner ++ utf8 "\x7d")))

/-- A parsed JSON value. -/
inductive JValue
  | null
  | bool (b : Bool)
  | number (lexeme : Bytes)
  | str (s : Bytes)
  | array (items : List JValue)
  | object (members : List (Bytes × JValue))

/-- JSON white space: space, tab, carriage return, line feed. -/
def isSpace (c : Byte) : Bool := c == 0x20 || c == 0x09 || c == 0x0D || c == 0x0A

/-- Drop leading white space. -/
def skipSpace : Bytes → Bytes
  | [] => []
  | c :: rest => if isSpace c then skipSpace rest else c :: rest

/-- Value of a hexadecimal digit (either case). -/
def hexVal (c : Byte) : Option Nat :=
  if 0x30 ≤ c.val ∧ c.val ≤ 0x39 then some (c.val - 0x30)
  else if 0x61 ≤ c.val ∧ c.val ≤ 0x66 then some (c.val - 0x61 + 10)
  else if 0x41 ≤ c.val ∧ c.val ≤ 0x46 then some (c.val - 0x41 + 10)
  else none

/-- Value of four hexadecimal digits. -/
def hex4 (a b c d : Byte) : Option Nat :=
  match hexVal a, hexVal b, hexVal c, hexVal d with
  | some x, some y, some z, some w => some (((x * 16 + y) * 16 + z) * 16 + w)
  | _, _, _, _ => none

/-- The byte of a single-letter escape: `\"`, `\\`, `\/`, `\b`, `\f`, `\n`,
`\r`, `\t`. -/
def simpleEscape (c : Byte) : Option Byte :=
  if c = 0x22 then some 0x22
  else if c = 0x5C then some 0x5C
  else if c = 0x2F then some 0x2F
  else if c = 0x62 then some 0x08
  else if c = 0x66 then some 0x0C
  else if c = 0x6E then some 0x0A
  else if c = 0x72 then some 0x0D
  else if c = 0x74 then some 0x09
  else none

/-- The encoding of U+FFFD, which replaces an unpaired surrogate and a byte
that belongs to no valid UTF-8 encoding. -/
def replacementChar : Bytes := [0xEF, 0xBF, 0xBD]

/-- The bytes a `\uXXXX` escape of value `hi` stands for, given the input
after it, and whether the escape that follows is part of it: the escape of a
high surrogate followed by the escape of a low surrogate is one code point; any
other surrogate is replaced by U+FFFD. -/
def decodeEscape (hi : Nat) (rest : Bytes) : Option (Bytes × Bool) :=
  if 0xD800 ≤ hi ∧ hi < 0xE000 then
    match rest with
    | b1 :: b2 :: l1 :: l2 :: l3 :: l4 :: _ =>
      if b1 = 0x5C ∧ b2 = 0x75 then
        match hex4 l1 l2 l3 l4 with
        | none => none
        | some lo =>
          if hi < 0xDC00 ∧ 0xDC00 ≤ lo ∧ lo < 0xE000 then
            some (encodeRune ((hi - 0xD800) * 0x400 + (lo - 0xDC00) + 0x10000), true)
          else some (replacementChar, false)
      else some (replacementChar, false)
    | _ => some (replacementChar, false)
  else some (encodeRune hi, false)

/-- One step inside a JSON string literal: `none` if the input is malformed
here, `some (none, rest)` at the closing quote, and `some (some unit, rest)` for
the bytes of the next unit of the string, written raw or as an escape.  Raw
control characters are not allowed; a raw byte that belongs to no valid UTF-8
encoding is replaced by U+FFFD. -/
def stringStep : Bytes → Option (Option Bytes × Bytes)
  | [] => none
  | c :: rest =>
    if c = 0x22 then some (none, rest)
    else if c = 0x5C then
      match rest with
      | [] => none
      | e :: rest1 =>
        if e = 0x75 then
          match rest1 with
          | h1 :: h2 :: h3 :: h4 :: rest2 =>
            match hex4 h1 h2 h3 h4 with
            | none => none
            | some hi =>
              match decodeEscape hi rest2 with
              | none => none
              | some (unit, false) => some (some unit, rest2)
              | some (unit, true) => some (some unit, rest2.drop 6)
          | _ => none
        else
          match simpleEscape e with
          | none => none
          | some ch => some (some [ch], rest1)
    else if c.val < 0x20 then none
    else if c.val < 0x80 then some (some [c], rest)
    else
      match runeAt (c :: rest) with
      | none => some (some replacementChar, rest)
      | some (rune, rest1) => some (some rune, rest1)

/-- Decode a JSON string literal after its opening quote, one step per unit of
fuel: the string and the input after the closing quote. -/
def parseStringFuel : Nat → Bytes → Option (Bytes × Bytes)
  | 0, _ => none
  | fuel + 1, cs =>
    match stringStep cs with
    | none => none
    | some (none, rest) => some ([], rest)
    | some (some unit, rest) => (parseStringFuel fuel rest).map (fun r => (unit ++ r.1, r.2))

/-- Decode a JSON string literal after its opening quote; every step consumes
input, so the length of the input is fuel enough. -/
def parseString (cs : Bytes) : Option (Bytes × Bytes) :=
  parseStringFuel (cs.length + 1) cs

/-- Whether a byte is a decimal digit. -/
def isDigit (c : Byte) : Bool := decide (0x30 ≤ c.val ∧ c.val ≤ 0x39)

/-- Split off the leading decimal digits. -/
def takeDigits : Bytes → Bytes × Bytes
  | [] => ([], [])
  | c :: rest =>
    if isDigit c then ((takeDigits rest).1.cons c, (takeDigits rest).2) else ([], c :: rest)

/-- Split off an optional leading byte out of a given list. -/
def takeOneOf (options : Bytes) : Bytes → Bytes × Bytes
  | [] => ([], [])
  | c :: rest => if c ∈ options then ([c], rest) else ([], c :: rest)

/-- Scan a JSON number: `-? (0 | [1-9][0-9]*) (. [0-9]+)? ([eE] [+-]? [0-9]+)?`;
the lexeme and the input after it. -/
def parseNumber (cs : Bytes) : Option (Bytes × Bytes) :=
  let sign := takeOneOf [0x2D] cs
  let intPart : Option (Bytes × Bytes) :=
    if ((takeOneOf [0x30] sign.2).1).isEmpty then
      (if (takeDigits sign.2).1.isEmpty then none else some (takeDigits sign.2))
    else some (takeOneOf [0x30] sign.2)
  match intPart with
  | none => none
  | some (ip, cs2) =>
    let frac : Option (Bytes × Bytes) :=
      if ((takeOneOf [0x2E] cs2).1).isEmpty then some ([], cs2)
      else if (takeDigits (takeOneOf [0x2E] cs2).2).1.isEmpty then none
      else some (0x2E :: (takeDigits (takeOneOf [0x2E] cs2).2).1,
        (takeDigits (takeOneOf [0x2E] cs2).2).2)
    match frac with
    | none => none
    | some (fp, cs3) =>
      let mark := takeOneOf [0x65, 0x45] cs3
      let exp : Option (Bytes × Bytes) :=
        if mark.1.isEmpty then some ([], cs3)
        else
          let sg := takeOneOf [0x2B, 0x2D] mark.2
          if (takeDigits sg.2).1.isEmpty then none
          else some (mark.1 ++ sg.1 ++ (takeDigits sg.2).1, (takeDigits sg.2).2)
      match exp with
      | none => none
      | some (ep, cs4) => some (sign.1 ++ ip ++ fp ++ ep, cs4)

/-- Read a literal name (`true`, `false`, `null`) at the head of the input. -/
def parseLiteral (name : Bytes) (v : JValue) (cs : Bytes) : Option (JValue × Bytes) :=
  if name.isPrefixOf cs then some (v, cs.drop name.length) else none

mutual

/-- Parse one JSON value at the head of the input (no leading white space);
the fuel bounds the number of values, members and elements visited. -/
def parseValue : Nat → Bytes → Option (JValue × Bytes)
  | 0, _ => none
  | fuel + 1, cs =>
    match cs with
    | [] => none
    | c :: rest =>
      if c = 0x7B then
        match skipSpace rest with
        | [] => none
        | d :: rest1 =>
          if d = 0x7D then some (JValue.object [], rest1)
          else (parseMembers fuel (d :: rest1)).map (fun r => (JValue.object r.1, r.2))
      else if c = 0x5B then
        match skipSpace rest with
        | [] => none
        | d :: rest1 =>
          if d = 0x5D then some (JValue.array [], rest1)
          else (parseElements fuel (d :: rest1)).map (fun r => (JValue.array r.1, r.2))
      else if c = 0x22 then
        (parseString rest).map (fun r => (JValue.str r.1, r.2))
      else if c = 0x74 then parseLiteral (utf8 "true") (JValue.bool true) (c :: rest)
      else if c = 0x66 then parseLiteral (utf8 "false") (JValue.bool false) (c :: rest)
      else if c = 0x6E then parseLiteral (utf8 "null") JValue.null (c :: rest)
      else (parseNumber (c :: rest)).map (fun r => (JValue.number r.1, r.2))

/-- Parse the members of an object up to and including the closing brace. -/
def parseMembers : Nat → Bytes → Option (List (Bytes × JValue) × Bytes)
  | 0, _ => none
  | fuel + 1, cs =>
    match cs with
    | [] => none
    | q :: rest =>
      if q = 0x22 then
        match parseString rest with
        | none => none
        | some (key, rest1) =>
          match skipSpace rest1 with
          | [] => none
          | colon :: rest2 =>
            if colon = 0x3A then
              match parseValue fuel (skipSpace rest2) with
              | none => none
              | some (v, rest3) =>
                match skipSpace rest3 with
                | [] => none
                | sep :: rest4 =>
                  if sep = 0x2C then
                    (parseMembers fuel (skipSpace rest4)).map (fun r => ((key, v) :: r.1, r.2))
                  else if sep = 0x7D then some ([(key, v)], rest4)
                  else none
            else none
      else none

/-- Parse the elements of an array up to and including the closing bracket. -/
def parseElements : Nat → Bytes → Option (List JValue × Bytes)
  | 0, _ => none
  | fuel + 1, cs =>
    match parseValue fuel cs with
    | none => none
    | some (v, rest1) =>
      match skipSpace rest1 with
      | [] => none
      | sep :: rest2 =>
        if sep = 0x2C then
          (parseElements fuel (skipSpace rest2)).map (fun r => (v :: r.1, r.2))
        else if sep = 0x5D then some ([v], rest2)
        else none

end

/-- Parse a complete JSON text: one value with optional white space around it
and nothing else. -/
def parseJSON (data : Bytes) : Option JValue :=
  match parseValue (data.length + 1) (skipSpace data) with
  | none => none
  | some (v, rest) => if (skipSpace rest).isEmpty then some v else none

/-- ASCII lower-casing of a key, for case-insensitive matching of field names. -/
def foldKey (key : Bytes) : Bytes :=
  key.map (fun c => if 0x41 ≤ c.val ∧ c.val ≤ 0x5A then c + 32 else c)

/-- The struct field a JSON key selects: the field whose tag is the key,
otherwise the field whose tag equals it up to letter case. -/
def matchField (key : Bytes) : Option Nat :=
  let names := [utf8 "identifier", utf8 "type", utf8 "crp", utf8 "owner"]
  match names.indexOf? key with
  | some i => some i
  | none => names.indexOf? (foldKey key)

/-- Store one object member into the record: a string value sets the field its
key selects; `null`, a value of another kind, or an unknown key leave the record
as it is. -/
def setField (ic : IC) (key : Bytes) (v : JValue) : IC :=
  match v with
  | JValue.str s =>
    match matchField key with
    | some 0 => { ic with Identifier := s }
    | some 1 => { ic with Type_ := s }
    | some 2 => { ic with CRP := s }
    | some 3 => { ic with Owner := s }
    | _ => ic
  | _ => ic

/-- Library call `json.Unmarshal(data, &ic)`: the record after the call.  Input
that is not one well-formed JSON text leaves the record untouched, and so does
a value that is not an object; the members of an object are stored in order.
The error `Unmarshal` returns is dropped at every call site and is not
modelled. -/
def jsonUnmarshal (data : Bytes) (ic : IC) : IC :=
  match parseJSON data with
  | some (JValue.object members) => members.foldl (fun acc m => setField acc m.1 m.2) ic
  | _ => ic

/-! ## Handlers -/

/-- Library call `strings.Contains(s, substr)`. -/
def stringsContains : Bytes → Bytes → Bool
  | [], substr => substr.isEmpty
  | c :: rest, substr => substr.isPrefixOf (c :: rest) || stringsContains rest substr

/-- Handler `queryIC`. -/
def queryIC (stub : Stub) (args : List Bytes) : Response × Stub :=
  if args.length != 1 then
    (Response.error "Incorrect number of arguments. Expecting 1", stub)
  else
    let icAsBytes := (GetState stub (args.getD 0 [])).1
    (Response.success icAsBytes, stub)

/-- The seven records `initLedger` writes. -/
def ics : List IC :=
  [ ⟨utf8 "a", utf8 "laptop", utf8 "1234", utf8 "Org1"⟩,
    ⟨utf8 "b", utf8 "desktop", utf8 "2345", utf8 "Org1"⟩,
    ⟨utf8 "c", utf8 "server", utf8 "3456", utf8 "Org2"⟩,
    ⟨utf8 "a", utf8 "phone", utf8 "4567", utf8 "Org2"⟩,
    ⟨utf8 "e", utf8 "iot", utf8 "5678", utf8 "Org2"⟩,
    ⟨utf8 "f", utf8 "network", utf8 "6789", utf8 "Org1"⟩,
    ⟨utf8 "g", utf8 "laptop", utf8 "7890", utf8 "Org1"⟩ ]

/-- The loop of `initLedger` from index `i` on, over the records not yet
written: each is put at key `"IC" + strconv.Itoa(i)`; the error of the put is
dropped. -/
def initLedgerLoop : Nat → List IC → Stub → Stub
  | _, [], stub => stub
  | i, ic :: rest, stub =>
    let icAsBytes := jsonMarshal ic
    initLedgerLoop (i + 1) rest (PutState stub (utf8 "IC" ++ utf8 (toString i)) icAsBytes).2

/-- Handler `initLedger`. -/
def initLedger (stub : Stub) : Response × Stub :=
  (Response.success [], initLedgerLoop 0 ics stub)

/-- Handler `createIC`. -/
def createIC (stub : Stub) (args : List Bytes) : Response × Stub :=
  match GetMSPID stub with
  | Except.error err => (Response.error err, stub)
  | Except.ok mspid =>
    if mspid != utf8 "Org1MSP" then (Response.error "Assert error", stub)
    else
      match GetID stub with
      | Except.error err => (Response.error err, stub)
      | Except.ok id =>
        if args.length != 5 then
          (Response.error "Incorrect number of arguments. Expecting 5", stub)
        else
          let ic : IC :=
            { Identifier := args.getD 1 [], Type_ := args.getD 2 [], CRP := args.getD 3 [],
              Owner := id }
          let icAsBytes := jsonMarshal ic
          (Response.success [], (PutState stub (args.getD 0 []) icAsBytes).2)

/-- The text one scanned pair adds to the buffer, after the separating comma. -/
def writeMember (buffer key value : Bytes) : Bytes :=
  buffer ++ utf8 "\x7b\"Key\":" ++ utf8 "\"" ++ key ++ utf8 "\"" ++ utf8 ", \"Record\":" ++
    value ++ utf8 "\x7d"

/-- The loop of `queryAllICs` over the remaining iterator steps, with the
buffer and the flag `bArrayMemberAlreadyWritten`. -/
def queryAllICsLoop : List (Except String (Bytes × Bytes)) → Bytes → Bool → Response
  | [], buffer, _ => Response.success (buffer ++ utf8 "]")
  | Except.error err :: _, _, _ => Response.error err
  | Except.ok queryResponse :: rest, buffer, bArrayMemberAlreadyWritten =>
    let buffer := if bArrayMemberAlreadyWritten then buffer ++ utf8 "," else buffer
    queryAllICsLoop rest (writeMember buffer queryResponse.1 queryResponse.2) true

/-- Handler `queryAllICs`. -/
def queryAllICs (stub : Stub) : Response × Stub :=
  match GetStateByRange stub (utf8 "IC0") (utf8 "IC999") with
  | Except.error err => (Response.error err, stub)
  | Except.ok resultsIterator => (queryAllICsLoop resultsIterator (utf8 "[") false, stub)

/-- The loop of `queryAllICsAttr`: as `queryAllICsLoop`, but a pair is written
only if the identifier of its decoded record contains `icidentifier`. -/
def queryAllICsAttrLoop (icidentifier : Bytes) :
    List (Except String (Bytes × Bytes)) → Bytes → Bool → Response
  | [], buffer, _ => Response.success (buffer ++ utf8 "]")
  | Except.error err :: _, _, _ => Response.error err
  | Except.ok queryResponse :: rest, buffer, bArrayMemberAlreadyWritten =>
    let objIC := jsonUnmarshal queryResponse.2 IC.zero
    if stringsContains objIC.Identifier icidentifier then
      let buffer := if bArrayMemberAlreadyWritten then buffer ++ utf8 "," else buffer
      queryAllICsAttrLoop icidentifier rest
        (writeMember buffer queryResponse.1 queryResponse.2) true
    else
      queryAllICsAttrLoop icidentifier rest buffer bArrayMemberAlreadyWritten

/-- Handler `queryAllICsAttr`. -/
def queryAllICsAttr (stub : Stub) : Response × Stub :=
  match GetAttributeValue stub "icidentifier" with
  | Except.error err => (Response.error err, stub)
  | Except.ok (icidentifier, _) =>
    match AssertAttributeValue stub "icidentifier" (utf8 "a") with
    | some _ => (Response.error "Assert error", stub)
    | none =>
      match GetStateByRange stub (utf8 "IC0") (utf8 "IC999") with
      | Except.error err => (Response.error err, stub)
      | Except.ok resultsIterator =>
        (queryAllICsAttrLoop icidentifier resultsIterator (utf8 "[") false, stub)

/-- Handler `changeICOwner`. -/
def changeICOwner (stub : Stub) (args : List Bytes) : Response × Stub :=
  match GetID stub with
  | Except.error err => (Response.error err, stub)
  | Except.ok id =>
    if args.length != 2 then
      (Response.error "Incorrect number of arguments. Expecting 2", stub)
    else
      let icAsBytes := (GetState stub (args.getD 0 [])).1
      let ic := jsonUnmarshal icAsBytes IC.zero
      if ic.Owner != id then
        (Response.error "Ownership transfer not permitted by the sender...", stub)
      else
        let ic := { ic with Owner := args.getD 1 [] }
        let icAsBytes := jsonMarshal ic
        (Response.success [], (PutState stub (args.getD 0 []) icAsBytes).2)

/-- Entry point `Invoke`, on the function name and parameters of the call. -/
def Invoke (stub : Stub) (function : Bytes) (args : List Bytes) : Response × Stub :=
  if function = utf8 "queryIC" then queryIC stub args
  else if function = utf8 "initLedger" then initLedger stub
  else if function = utf8 "createIC" then createIC stub args
  else if function = utf8 "queryAllICs" then queryAllICs stub
  else if function = utf8 "queryAllICsAttr" then queryAllICsAttr stub
  else if function = utf8 "changeICOwner" then changeICOwner stub args
  else (Response.error "Invalid Smart Contract function name.", stub)

/-! ## The array text of the specification -/

/-- The text of one array element, as the specification gives it:
`{"Key":"k", "Record":v}` with the value embedded as it is stored. -/
def memberText (kv : Bytes × Bytes) : Bytes :=
  utf8 "\x7b\"Key\":\"" ++ kv.1 ++ utf8 "\", \"Record\":" ++ kv.2 ++ utf8 "\x7d"

/-- The text of the array of the specification: the elements joined by commas,
in brackets. -/
def arrayText (kvs : List (Bytes × Bytes)) : Bytes :=
  utf8 "[" ++ (utf8 ",").intercalate (kvs.map memberText) ++ utf8 "]"

/-! ## Example callers and states -/

/-- A caller of organisation `Org1MSP` with id `alice` and attribute
`icidentifier = a`. -/
def org1Alice : ClientIdentity :=
  { mspid := Except.ok (utf8 "Org1MSP"), id := Except.ok (utf8 "alice"),
    attrs := fun n =>
      if n = "icidentifier" then Except.ok (some (utf8 "a")) else Except.ok none }

/-- A caller of organisation `Org2MSP` with id `bob` and no attributes. -/
def org2Bob : ClientIdentity :=
  { mspid := Except.ok (utf8 "Org2MSP"), id := Except.ok (utf8 "bob"),
    attrs := fun _ => Except.ok none }

/-- A caller of organisation `Org1MSP` whose id the library cannot read. -/
def org1Unreadable : ClientIdentity :=
  { mspid := Except.ok (utf8 "Org1MSP"), id := Except.error "failed to get the id",
    attrs := fun _ => Except.ok none }

/-- A caller of organisation `Org1MSP` whose id is the empty string. -/
def org1Nameless : ClientIdentity :=
  { mspid := Except.ok (utf8 "Org1MSP"), id := Except.ok [], attrs := fun _ => Except.ok none }

/-- The stub of a call on the empty ledger whose store reports no error. -/
def freshStub (creator : ClientIdentity) : Stub :=
  { ledger := Ledger.empty, creator := creator, getFault := fun _ => none,
    putFault := fun _ _ => none, rangeFault := fun _ _ => none, nextFault := fun _ => none }

/-- The ledger after `initLedger` on the empty ledger. -/
def seededStub (creator : ClientIdentity) : Stub := (initLedger (freshStub creator)).2

/-- The same stub behind a store whose every put reports an error. -/
def putFailing (stub : Stub) : Stub :=
  { stub with putFault := fun _ _ => some "ledger unavailable" }

/-- The same stub behind a store whose every get reports an error. -/
def getFailing (stub : Stub) : Stub :=
  { stub with getFault := fun _ => some "ledger unavailable" }

/-- The same stub behind a store whose range scan reports an error. -/
def scanFailing (stub : Stub) : Stub :=
  { stub with rangeFault := fun _ _ => some "ledger unavailable" }

/-! ## The writes of `initLedger` -/

/-- The puts of a list of key/value pairs, in order, the error of each put
being dropped: the stub after them. -/
def putAll : List (Bytes × Bytes) → Stub → Stub
  | [], stub => stub
  | kv :: rest, stub => putAll rest (PutState stub kv.1 kv.2).2

/-- The seven key/value pairs of the seed data as the specification lists them:
the keys `IC0`, ..., `IC6`, each with the encoding of its literal record. -/
def seedEntries : List (Bytes × Bytes) :=
  [ (utf8 "IC0", utf8 "\x7b\"identifier\":\"a\",\"type\":\"laptop\",\"crp\":\"1234\",\"owner\":\"Org1\"\x7d"),
    (utf8 "IC1", utf8 "\x7b\"identifier\":\"b\",\"type\":\"desktop\",\"crp\":\"2345\",\"owner\":\"Org1\"\x7d"),
    (utf8 "IC2", utf8 "\x7b\"identifier\":\"c\",\"type\":\"server\",\"crp\":\"3456\",\"owner\":\"Org2\"\x7d"),
    (utf8 "IC3", utf8 "\x7b\"identifier\":\"a\",\"type\":\"phone\",\"crp\":\"4567\",\"owner\":\"Org2\"\x7d"),
    (utf8 "IC4", utf8 "\x7b\"identifier\":\"e\",\"type\":\"iot\",\"crp\":\"5678\",\"owner\":\"Org2\"\x7d"),
    (utf8 "IC5", utf8 "\x7b\"identifier\":\"f\",\"type\":\"network\",\"crp\":\"6789\",\"owner\":\"Org1\"\x7d"),
    (utf8 "IC6", utf8 "\x7b\"identifier\":\"g\",\"type\":\"laptop\",\"crp\":\"7890\",\"owner\":\"Org1\"\x7d") ]

/-- The seeded ledger with the value at `IC0` cut short and the value at `IC1`
replaced by text that is not JSON. -/
def corruptStub (creator : ClientIdentity) : Stub :=
  (PutState (PutState (seededStub creator) (utf8 "IC0") (utf8 "\x7b\"identifier\":\"a\"")).2
    (utf8 "IC1") (utf8 "a a a")).2


/-! ## The world state -/

theorem lookupEntry_insertEntry_same (k v : Bytes) (l : List (Bytes × Bytes)) :
    lookupEntry k (insertEntry k v l) = some v := by
  induction l with
  | nil => simp [insertEntry, lookupEntry]
  | cons hd tl ih =>
    simp only [insertEntry]
    split_ifs with h1 h2
    · simp [lookupEntry]
    · simp [lookupEntry]
    · simp [lookupEntry, h2, ih]

theorem lookupEntry_insertEntry_other (k k' v : Bytes) (l : List (Bytes × Bytes))
    (h : k' ≠ k) : lookupEntry k' (insertEntry k v l) = lookupEntry k' l := by
  induction l with
  | nil => simp [insertEntry, lookupEntry, h]
  | cons hd tl ih =>
    simp only [insertEntry]
    split_ifs with h1 h2
    · simp [lookupEntry, h]
    · have h3 : k' ≠ hd.1 := h2 ▸ h
      simp [lookupEntry, h, h3]
    · simp [lookupEntry, ih]

theorem Ledger.get_put_same (l : Ledger) (k v : Bytes) : (l.put k v).get k = some v :=
  lookupEntry_insertEntry_same k v l.entries

theorem Ledger.get_put_other (l : Ledger) (k k' v : Bytes) (h : k' ≠ k) :
    (l.put k v).get k' = l.get k' :=
  lookupEntry_insertEntry_other k k' v l.entries h

/-- A put that reports no error stores the value. -/
theorem PutState_get_same (stub : Stub) (k v : Bytes) (h : stub.putFault k v = none) :
    (PutState stub k v).2.ledger.get k = some v := by
  simp [PutState, h, Ledger.get_put_same]

/-- A put leaves the values at all other keys alone. -/
theorem PutState_get_other (stub : Stub) (k k' v : Bytes) (h : k' ≠ k) :
    (PutState stub k v).2.ledger.get k' = stub.ledger.get k' := by
  unfold PutState
  cases stub.putFault k v with
  | none => exact Ledger.get_put_other stub.ledger k k' v h
  | some e => rfl

/-! ## The JSON encoding reads back -/

theorem hexVal_hexDigit : ∀ d, d < 16 → hexVal (hexDigit d) = some d := by decide

theorem hex4_unicodeEscape (n : Nat) (hn : n < 65536) :
    hex4 (hexDigit (n / 4096 % 16)) (hexDigit (n / 256 % 16)) (hexDigit (n / 16 % 16))
      (hexDigit (n % 16)) = some n := by
  have h1 := hexVal_hexDigit (n / 4096 % 16) (Nat.mod_lt _ (by norm_num))
  have h2 := hexVal_hexDigit (n / 256 % 16) (Nat.mod_lt _ (by norm_num))
  have h3 := hexVal_hexDigit (n / 16 % 16) (Nat.mod_lt _ (by norm_num))
  have h4 := hexVal_hexDigit (n % 16) (Nat.mod_lt _ (by norm_num))
  simp only [hex4, h1, h2, h3, h4, Option.some.injEq]
  omega

/-- A valid encoding found at the head of the input is a prefix of it, at least
two bytes long, and is found again whatever follows it. -/
theorem runeAt_spec (s rune r : Bytes) (h : runeAt s = some (rune, r)) :
    s = rune ++ r ∧ 2 ≤ rune.length ∧ ∀ X, runeAt (rune ++ X) = some (rune, X) := by
  rcases s with _ | ⟨b0, _ | ⟨b1, s2⟩⟩
  · simp [runeAt] at h
  · simp [runeAt] at h
  · simp only [runeAt] at h
    split_ifs at h with h2
    · simp only [Option.some.injEq, Prod.mk.injEq] at h
      obtain ⟨rfl, rfl⟩ := h
      exact ⟨rfl, by simp, fun X => by simp [runeAt, h2]⟩
    · rcases s2 with _ | ⟨b2, s3⟩
      · simp at h
      · simp only at h
        split_ifs at h with h3
        · simp only [Option.some.injEq, Prod.mk.injEq] at h
          obtain ⟨rfl, rfl⟩ := h
          exact ⟨rfl, by simp, fun X => by simp [runeAt, h2, h3]⟩
        · rcases s3 with _ | ⟨b3, s4⟩
          · simp at h
          · simp only at h
            split_ifs at h with h4
            simp only [Option.some.injEq, Prod.mk.injEq] at h
            obtain ⟨rfl, rfl⟩ := h
            exact ⟨rfl, by simp, fun X => by simp [runeAt, h2, h3, h4]⟩

/-- The decoder reads back the text the encoder writes for an ASCII byte. -/
theorem stringStep_escapeByte (b : Byte) (hb : b.val < 0x80) (X : Bytes) :
    stringStep (escapeByte b ++ X) = some (some [b], X) := by
  simp only [escapeByte]
  split_ifs with h1 h2 h3 h4 h5 h6 h7 h8
  · subst h1; simp [stringStep, simpleEscape]
  · subst h2; simp [stringStep, simpleEscape]
  · subst h3; simp [stringStep, simpleEscape]
  · subst h4; simp [stringStep, simpleEscape]
  · subst h5; simp [stringStep, simpleEscape]
  · subst h6; simp [stringStep, simpleEscape]
  · subst h7; simp [stringStep, simpleEscape]
  · have hx := hex4_unicodeEscape b.val (by omega)
    have hd : decodeEscape b.val X = some ([b], false) := by
      have hs : ¬ (0xD800 ≤ b.val ∧ b.val < 0xE000) := by omega
      have he : encodeRune b.val = [b] := by
        simp only [encodeRune, hb, if_true]
        congr 1
        exact Fin.ext (by simp [Fin.ofNat])
      simp only [decodeEscape, hs, if_false, he]
    simp [unicodeEscape, stringStep, hx, hd]
  · have hc : ¬ b.val < 0x20 := fun hlt => h8 (Or.inl hlt)
    simp [stringStep, h1, h2, hc, hb]

theorem stringStep_unicodeEscape (n : Nat) (hn : n < 0xD800 ∨ 0xE000 ≤ n ∧ n < 0x10000)
    (X : Bytes) : stringStep (unicodeEscape n ++ X) = some (some (encodeRune n), X) := by
  have hx := hex4_unicodeEscape n (by omega)
  have hd : decodeEscape n X = some (encodeRune n, false) := by
    have hs : ¬ (0xD800 ≤ n ∧ n < 0xE000) := by omega
    simp only [decodeEscape, hs, if_false]
  simp [unicodeEscape, stringStep, hx, hd]

/-- The decoder keeps a valid multi-byte encoding as it is. -/
theorem stringStep_rune (b : Byte) (rest rune r : Bytes) (hb : ¬ b.val < 0x80)
    (h : runeAt (b :: rest) = some (rune, r)) (X : Bytes) :
    stringStep (rune ++ X) = some (some rune, X) := by
  obtain ⟨hs, hl, hX⟩ := runeAt_spec _ _ _ h
  rcases rune with _ | ⟨c, rune'⟩
  · simp at hl
  · have hc : c = b := by
      simp only [List.cons_append, List.cons.injEq] at hs
      exact hs.1.symm
    subst hc
    have h1 : c ≠ 0x22 := fun e => hb (by rw [e]; decide)
    have h2 : c ≠ 0x5C := fun e => hb (by rw [e]; decide)
    have h3 : ¬ c.val < 0x20 := fun e => hb (by omega)
    have hX' := hX X
    simp only [List.cons_append] at hX' ⊢
    simp only [stringStep, h1, h2, h3, hb, if_false, hX']

/-- What the decoder reads from the text the encoder writes for a byte string:
the string coerced to valid UTF-8. -/
theorem parseStringFuel_escapeFuel (rest : Bytes) :
    ∀ (n : Nat) (s : Bytes), s.length ≤ n → ∀ k, n < k →
      parseStringFuel k (escapeFuel n s ++ 0x22 :: rest) = some (toValidUTF8Fuel n s, rest) := by
  intro n
  induction n with
  | zero =>
    intro s hs k hk
    obtain ⟨k, rfl⟩ : ∃ k', k = k' + 1 := ⟨k - 1, by omega⟩
    have : s = [] := List.length_eq_zero.1 (by omega)
    subst this
    simp [escapeFuel, toValidUTF8Fuel, parseStringFuel, stringStep]
  | succ n ih =>
    intro s hs k hk
    obtain ⟨k, rfl⟩ : ∃ k', k = k' + 1 := ⟨k - 1, by omega⟩
    have hk' : n < k := by omega
    rcases s with _ | ⟨b, t⟩
    · simp [escapeFuel, escapeStep, toValidUTF8Fuel, coerceStep, parseStringFuel, stringStep]
    · have ht : t.length ≤ n := by simpa using hs
      by_cases hb : b.val < 0x80
      · simp only [escapeFuel, escapeStep, toValidUTF8Fuel, coerceStep, hb, if_true,
          List.append_assoc, parseStringFuel, stringStep_escapeByte b hb, ih t ht k hk',
          Option.map_some']
      · cases hr : runeAt (b :: t) with
        | none =>
          have hu := stringStep_unicodeEscape 0xFFFD (by omega)
            (escapeFuel n t ++ 0x22 :: rest)
          have he : encodeRune 0xFFFD = [0xEF, 0xBF, 0xBD] := by decide
          simp only [escapeFuel, escapeStep, toValidUTF8Fuel, coerceStep, hb, if_false, hr,
            List.append_assoc, parseStringFuel, hu, he, ih t ht k hk', Option.map_some']
        | some p =>
          obtain ⟨rune, r⟩ := p
          obtain ⟨hs', hl, _⟩ := runeAt_spec _ _ _ hr
          have hrl : r.length ≤ n := by
            have := congrArg List.length hs'
            simp only [List.length_cons, List.length_append] at this
            omega
          simp only [escapeFuel, escapeStep, toValidUTF8Fuel, coerceStep, hb, if_false, hr]
          by_cases h28 : rune = [0xE2, 0x80, 0xA8]
          · have hu := stringStep_unicodeEscape 0x2028 (by omega)
              (escapeFuel n r ++ 0x22 :: rest)
            have he : encodeRune 0x2028 = [0xE2, 0x80, 0xA8] := by decide
            simp only [h28, if_true, List.append_assoc, parseStringFuel, hu, he,
              ih r hrl k hk', Option.map_some']
          · by_cases h29 : rune = [0xE2, 0x80, 0xA9]
            · have hu := stringStep_unicodeEscape 0x2029 (by omega)
                (escapeFuel n r ++ 0x22 :: rest)
              have he : encodeRune 0x2029 = [0xE2, 0x80, 0xA9] := by decide
              subst h29
              simp only [h28, if_true, if_false, List.append_assoc, parseStringFuel, hu, he,
                ih r hrl k hk', Option.map_some']
            · simp only [h28, h29, if_false, List.append_assoc, parseStringFuel,
                stringStep_rune b t rune r hb hr, ih r hrl k hk', Option.map_some']

theorem length_le_escapeFuel :
    ∀ (n : Nat) (s : Bytes), s.length ≤ n → s.length ≤ (escapeFuel n s).length := by
  intro n
  induction n with
  | zero => intro s hs; omega
  | succ n ih =>
    intro s hs
    rcases s with _ | ⟨b, t⟩
    · simp
    · have ht : t.length ≤ n := by simpa using hs
      by_cases hb : b.val < 0x80
      · have h1 : 1 ≤ (escapeByte b).length := by
          simp only [escapeByte, unicodeEscape]
          split_ifs <;> simp
        have := ih t ht
        simp only [escapeFuel, escapeStep, hb, if_true, List.length_append, List.length_cons]
        omega
      · cases hr : runeAt (b :: t) with
        | none =>
          have := ih t ht
          simp only [escapeFuel, escapeStep, hb, if_false, hr, unicodeEscape,
            List.length_append, List.length_cons, List.length_nil]
          omega
        | some p =>
          obtain ⟨rune, r⟩ := p
          obtain ⟨hs', hl, _⟩ := runeAt_spec _ _ _ hr
          have hlen := congrArg List.length hs'
          simp only [List.length_cons, List.length_append] at hlen
          have hrl : r.length ≤ n := by omega
          have := ih r hrl
          simp only [escapeFuel, escapeStep, hb, if_false, hr]
          split_ifs with h28 h29
          · subst h28
            simp only [unicodeEscape, List.length_append, List.length_cons, List.length_nil] at *
            omega
          · subst h29
            simp only [unicodeEscape, List.length_append, List.length_cons, List.length_nil] at *
            omega
          · simp only [List.length_append, List.length_cons]
            omega

theorem parseString_escapeBytes (s rest : Bytes) :
    parseString (escapeBytes s ++ 0x22 :: rest) = some (toValidUTF8 s, rest) := by
  apply parseStringFuel_escapeFuel rest s.length s (le_refl _)
  have := length_le_escapeFuel s.length s (le_refl _)
  simp only [escapeBytes, List.length_append, List.length_cons]
  omega

/-- Valid UTF-8 is left as it is by the coercion. -/
theorem toValidUTF8Fuel_of_valid :
    ∀ (n : Nat) (s : Bytes), s.length ≤ n → validUTF8Fuel n s = true →
      toValidUTF8Fuel n s = s := by
  intro n
  induction n with
  | zero =>
    intro s hs _
    have : s = [] := List.length_eq_zero.1 (by omega)
    subst this
    rfl
  | succ n ih =>
    intro s hs hv
    rcases s with _ | ⟨b, t⟩
    · simp [toValidUTF8Fuel, coerceStep]
    · have ht : t.length ≤ n := by simpa using hs
      simp only [validUTF8Fuel] at hv
      by_cases hb : b.val < 0x80
      · simp only [hb, if_true] at hv
        simp only [toValidUTF8Fuel, coerceStep, hb, if_true, ih t ht hv, List.singleton_append]
      · simp only [hb, if_false] at hv
        cases hr : runeAt (b :: t) with
        | none => simp [hr] at hv
        | some p =>
          obtain ⟨rune, r⟩ := p
          obtain ⟨hs', hl, _⟩ := runeAt_spec _ _ _ hr
          have hlen := congrArg List.length hs'
          simp only [List.length_cons, List.length_append] at hlen
          have hrl : r.length ≤ n := by omega
          simp only [hr] at hv
          simp only [toValidUTF8Fuel, coerceStep, hb, if_false, hr, ih r hrl hv]
          exact hs'.symm

theorem toValidUTF8_of_valid (s : Bytes) (h : validUTF8 s = true) : toValidUTF8 s = s :=
  toValidUTF8Fuel_of_valid s.length s (le_refl _) h

theorem parseMembers_more (fuel : Nat) (key val more : Bytes) :
    parseMembers (fuel + 2)
        (0x22 :: (escapeBytes key ++ 0x22 :: 0x3A :: 0x22 ::
          (escapeBytes val ++ 0x22 :: 0x2C :: 0x22 :: more)))
      = (parseMembers (fuel + 1) (0x22 :: more)).map
          (fun r => ((toValidUTF8 key, JValue.str (toValidUTF8 val)) :: r.1, r.2)) := by
  simp [parseMembers, parseValue, parseString_escapeBytes, skipSpace, isSpace]

theorem parseMembers_last (fuel : Nat) (key val more : Bytes) :
    parseMembers (fuel + 2)
        (0x22 :: (escapeBytes key ++ 0x22 :: 0x3A :: 0x22 ::
          (escapeBytes val ++ 0x22 :: 0x7D :: more)))
      = some ([(toValidUTF8 key, JValue.str (toValidUTF8 val))], more) := by
  simp [parseMembers, parseValue, parseString_escapeBytes, skipSpace, isSpace]

/-- The bytes `json.Marshal` writes, with the keys seen as encoded strings. -/
theorem jsonMarshal_eq (ic : IC) :
    jsonMarshal ic =
      0x7B :: 0x22 :: (escapeBytes (utf8 "identifier") ++ 0x22 :: 0x3A :: 0x22 ::
        (escapeBytes ic.Identifier ++ 0x22 :: 0x2C :: 0x22 ::
        (escapeBytes (utf8 "type") ++ 0x22 :: 0x3A :: 0x22 ::
        (escapeBytes ic.Type_ ++ 0x22 :: 0x2C :: 0x22 ::
        (escapeBytes (utf8 "crp") ++ 0x22 :: 0x3A :: 0x22 ::
        (escapeBytes ic.CRP ++ 0x22 :: 0x2C :: 0x22 ::
        (escapeBytes (utf8 "owner") ++ 0x22 :: 0x3A :: 0x22 ::
        (escapeBytes ic.Owner ++ 0x22 :: 0x7D :: [])))))))) := by
  have h1 : escapeBytes (utf8 "identifier") = utf8 "identifier" := by decide
  have h2 : escapeBytes (utf8 "type") = utf8 "type" := by decide
  have h3 : escapeBytes (utf8 "crp") = utf8 "crp" := by decide
  have h4 : escapeBytes (utf8 "owner") = utf8 "owner" := by decide
  have k1 : utf8 "\x7b\"identifier\":" = 0x7B :: 0x22 :: (utf8 "identifier" ++ [0x22, 0x3A]) := by
    decide
  have k2 : utf8 ",\"type\":" = 0x2C :: 0x22 :: (utf8 "type" ++ [0x22, 0x3A]) := by decide
  have k3 : utf8 ",\"crp\":" = 0x2C :: 0x22 :: (utf8 "crp" ++ [0x22, 0x3A]) := by decide
  have k4 : utf8 ",\"owner\":" = 0x2C :: 0x22 :: (utf8 "owner" ++ [0x22, 0x3A]) := by decide
  have k5 : utf8 "\x7d" = [0x7D] := by decide
  rw [h1, h2, h3, h4]
  simp only [jsonMarshal, encodeString, k1, k2, k3, k4, k5, List.cons_append,
    List.append_assoc, List.nil_append, List.singleton_append]

/-- What `json.Unmarshal` parses from the output of `json.Marshal`: the object
of the four fields in order, each string coerced to valid UTF-8. -/
theorem parseJSON_jsonMarshal (ic : IC) :
    parseJSON (jsonMarshal ic) = some (JValue.object
      [(utf8 "identifier", JValue.str (toValidUTF8 ic.Identifier)),
       (utf8 "type", JValue.str (toValidUTF8 ic.Type_)),
       (utf8 "crp", JValue.str (toValidUTF8 ic.CRP)),
       (utf8 "owner", JValue.str (toValidUTF8 ic.Owner))]) := by
  have hlen : 6 ≤ (jsonMarshal ic).length := by
    rw [jsonMarshal_eq]
    simp only [List.length_cons, List.length_append]
    omega
  obtain ⟨n, hn⟩ : ∃ n, (jsonMarshal ic).length + 1 = n + 7 :=
    ⟨(jsonMarshal ic).length - 6, by omega⟩
  have t1 : toValidUTF8 (utf8 "identifier") = utf8 "identifier" := by decide
  have t2 : toValidUTF8 (utf8 "type") = utf8 "type" := by decide
  have t3 : toValidUTF8 (utf8 "crp") = utf8 "crp" := by decide
  have t4 : toValidUTF8 (utf8 "owner") = utf8 "owner" := by decide
  unfold parseJSON
  rw [hn, jsonMarshal_eq]
  simp [parseValue, skipSpace, isSpace, parseMembers_more, parseMembers_last, t1, t2, t3, t4]

/-- Decoding the encoding of a record gives the record with every field coerced
to valid UTF-8. -/
theorem jsonUnmarshal_jsonMarshal (ic ic0 : IC) :
    jsonUnmarshal (jsonMarshal ic) ic0 =
      { Identifier := toValidUTF8 ic.Identifier, Type_ := toValidUTF8 ic.Type_,
        CRP := toValidUTF8 ic.CRP, Owner := toValidUTF8 ic.Owner } := by
  simp only [jsonUnmarshal, parseJSON_jsonMarshal, List.foldl_cons, List.foldl_nil, setField]
  have h0 : matchField (utf8 "identifier") = some 0 := by decide
  have h1 : matchField (utf8 "type") = some 1 := by decide
  have h2 : matchField (utf8 "crp") = some 2 := by decide
  have h3 : matchField (utf8 "owner") = some 3 := by decide
  simp only [h0, h1, h2, h3]

/-- Decoding the encoding of a record whose fields are valid UTF-8 gives the
record back. -/
theorem jsonUnmarshal_jsonMarshal_valid (ic ic0 : IC)
    (h1 : validUTF8 ic.Identifier = true) (h2 : validUTF8 ic.Type_ = true)
    (h3 : validUTF8 ic.CRP = true) (h4 : validUTF8 ic.Owner = true) :
    jsonUnmarshal (jsonMarshal ic) ic0 = ic := by
  rw [jsonUnmarshal_jsonMarshal, toValidUTF8_of_valid _ h1, toValidUTF8_of_valid _ h2,
    toValidUTF8_of_valid _ h3, toValidUTF8_of_valid _ h4]
/-! ## What the decoder reads is valid UTF-8 -/

theorem validUTF8Fuel_nil (n : Nat) : validUTF8Fuel n [] = true := by
  cases n <;> rfl

theorem validUTF8Fuel_ascii (n : Nat) (b : Byte) (s : Bytes) (hb : b.val < 0x80)
    (hs : validUTF8Fuel n s = true) : validUTF8Fuel (n + 1) (b :: s) = true := by
  simp only [validUTF8Fuel, hb, if_true, hs]

theorem validUTF8Fuel_rune (n : Nat) (c : Byte) (t s : Bytes) (hc : ¬ c.val < 0x80)
    (hr : ∀ X, runeAt (c :: t ++ X) = some (c :: t, X))
    (hs : validUTF8Fuel n s = true) : validUTF8Fuel (n + 1) (c :: t ++ s) = true := by
  have h := hr s
  simp only [List.cons_append] at h ⊢
  simp only [validUTF8Fuel, hc, if_false, h, hs]

/-- A unit placed before valid UTF-8 gives valid UTF-8. -/
theorem validUTF8Fuel_unit (u s : Bytes)
    (hu : (∃ b : Byte, u = [b] ∧ b.val < 0x80) ∨
      (∃ (c : Byte) (t : Bytes), u = c :: t ∧ ¬ c.val < 0x80 ∧
        ∀ X, runeAt (c :: t ++ X) = some (c :: t, X)))
    (hs : ∀ n, s.length ≤ n → validUTF8Fuel n s = true) :
    ∀ n, (u ++ s).length ≤ n → validUTF8Fuel n (u ++ s) = true := by
  intro n hn
  rcases hu with ⟨b, rfl, hb⟩ | ⟨c, t, rfl, hc, hr⟩
  · obtain ⟨m, rfl⟩ : ∃ m, n = m + 1 := ⟨n - 1, by simp at hn; omega⟩
    exact validUTF8Fuel_ascii m b s hb (hs m (by simp at hn; omega))
  · obtain ⟨m, rfl⟩ : ∃ m, n = m + 1 := ⟨n - 1, by simp at hn; omega⟩
    exact validUTF8Fuel_rune m c t s hc hr (hs m (by simp at hn; omega))

theorem encodeRune_unit (n : Nat) (hn : n < 0xD800 ∨ (0xE000 ≤ n ∧ n < 0x110000)) :
    (∃ b : Byte, encodeRune n = [b] ∧ b.val < 0x80) ∨
      (∃ (c : Byte) (t : Bytes), encodeRune n = c :: t ∧ ¬ c.val < 0x80 ∧
        ∀ X, runeAt (c :: t ++ X) = some (c :: t, X)) := by
  unfold encodeRune
  split_ifs with h1 h2 h3
  · left
    refine ⟨_, rfl, ?_⟩
    simp only [Fin.ofNat]
    omega
  · right
    refine ⟨_, _, rfl, ?_, fun X => ?_⟩
    · simp only [Fin.ofNat]
      omega
    · have r2 : isRune2 (Fin.ofNat (0xC0 + n / 64)) (Fin.ofNat (0x80 + n % 64)) := by
        simp only [isRune2, isCont, Fin.ofNat]
        omega
      simp [runeAt, r2]
  · right
    refine ⟨_, _, rfl, ?_, fun X => ?_⟩
    · simp only [Fin.ofNat]
      omega
    · have r2 : ¬ isRune2 (Fin.ofNat (0xE0 + n / 4096)) (Fin.ofNat (0x80 + n / 64 % 64)) := by
        simp only [isRune2, isCont, Fin.ofNat]
        omega
      have r3 : isRune3 (Fin.ofNat (0xE0 + n / 4096)) (Fin.ofNat (0x80 + n / 64 % 64))
          (Fin.ofNat (0x80 + n % 64)) := by
        simp only [isRune3, isCont, Fin.ofNat]
        omega
      simp [runeAt, r2, r3]
  · right
    refine ⟨_, _, rfl, ?_, fun X => ?_⟩
    · simp only [Fin.ofNat]
      omega
    · have r2 : ¬ isRune2 (Fin.ofNat (0xF0 + n / 262144))
          (Fin.ofNat (0x80 + n / 4096 % 64)) := by
        simp only [isRune2, isCont, Fin.ofNat]
        omega
      have r3 : ¬ isRune3 (Fin.ofNat (0xF0 + n / 262144)) (Fin.ofNat (0x80 + n / 4096 % 64))
          (Fin.ofNat (0x80 + n / 64 % 64)) := by
        simp only [isRune3, isCont, Fin.ofNat]
        omega
      have r4 : isRune4 (Fin.ofNat (0xF0 + n / 262144)) (Fin.ofNat (0x80 + n / 4096 % 64))
          (Fin.ofNat (0x80 + n / 64 % 64)) (Fin.ofNat (0x80 + n % 64)) := by
        simp only [isRune4, isCont, Fin.ofNat]
        omega
      simp [runeAt, r2, r3, r4]

theorem hexVal_lt (c : Byte) (v : Nat) (h : hexVal c = some v) : v < 16 := by
  simp only [hexVal] at h
  split_ifs at h <;> simp only [Option.some.injEq] at h <;> omega

theorem hex4_lt (a b c d : Byte) (n : Nat) (h : hex4 a b c d = some n) : n < 65536 := by
  simp only [hex4] at h
  cases ha : hexVal a with
  | none => simp [ha] at h
  | some x =>
    cases hb : hexVal b with
    | none => simp [ha, hb] at h
    | some y =>
      cases hc : hexVal c with
      | none => simp [ha, hb, hc] at h
      | some z =>
        cases hd : hexVal d with
        | none => simp [ha, hb, hc, hd] at h
        | some w =>
          simp only [ha, hb, hc, hd, Option.some.injEq] at h
          have := hexVal_lt _ _ ha
          have := hexVal_lt _ _ hb
          have := hexVal_lt _ _ hc
          have := hexVal_lt _ _ hd
          omega

theorem replacementChar_unit :
    (∃ b : Byte, replacementChar = [b] ∧ b.val < 0x80) ∨
      (∃ (c : Byte) (t : Bytes), replacementChar = c :: t ∧ ¬ c.val < 0x80 ∧
        ∀ X, runeAt (c :: t ++ X) = some (c :: t, X)) :=
  Or.inr ⟨0xEF, [0xBF, 0xBD], rfl, by decide, fun _ => rfl⟩

theorem decodeEscape_unit (hi : Nat) (rest u : Bytes) (flag : Bool) (hhi : hi < 65536)
    (h : decodeEscape hi rest = some (u, flag)) :
    (∃ b : Byte, u = [b] ∧ b.val < 0x80) ∨
      (∃ (c : Byte) (t : Bytes), u = c :: t ∧ ¬ c.val < 0x80 ∧
        ∀ X, runeAt (c :: t ++ X) = some (c :: t, X)) := by
  unfold decodeEscape at h
  split_ifs at h with hs
  · split at h
    · split_ifs at h with hu
      · split at h
        · simp at h
        · rename_i lo hlo
          have hlo' := hex4_lt _ _ _ _ _ hlo
          split_ifs at h with hp
          · simp only [Option.some.injEq, Prod.mk.injEq] at h
            rw [← h.1]
            exact encodeRune_unit _ (Or.inr (by omega))
          · simp only [Option.some.injEq, Prod.mk.injEq] at h
            rw [← h.1]
            exact replacementChar_unit
      · simp only [Option.some.injEq, Prod.mk.injEq] at h
        rw [← h.1]
        exact replacementChar_unit
    · simp only [Option.some.injEq, Prod.mk.injEq] at h
      rw [← h.1]
      exact replacementChar_unit
  · simp only [Option.some.injEq, Prod.mk.injEq] at h
    rw [← h.1]
    exact encodeRune_unit _ (by omega)

theorem simpleEscape_lt (e ch : Byte) (h : simpleEscape e = some ch) : ch.val < 0x80 := by
  simp only [simpleEscape] at h
  split_ifs at h <;> simp only [Option.some.injEq] at h <;> subst h <;> decide

/-- Every unit the string decoder produces is an ASCII byte or a valid
multi-byte encoding. -/
theorem stringStep_unit (cs u rest : Bytes) (h : stringStep cs = some (some u, rest)) :
    (∃ b : Byte, u = [b] ∧ b.val < 0x80) ∨
      (∃ (c : Byte) (t : Bytes), u = c :: t ∧ ¬ c.val < 0x80 ∧
        ∀ X, runeAt (c :: t ++ X) = some (c :: t, X)) := by
  rcases cs with _ | ⟨c, cs⟩
  · simp [stringStep] at h
  · simp only [stringStep] at h
    split_ifs at h with h1 h2 h3 h4
    · simp at h
    · split at h
      · simp at h
      · rename_i e rest1
        split_ifs at h with hu
        · split at h
          · rename_i h1 h2 h3 h4 rest2
            split at h
            · simp at h
            · rename_i hi hhi
              have hlt := hex4_lt _ _ _ _ _ hhi
              split at h
              · simp at h
              · rename_i unit hd
                simp only [Option.some.injEq, Prod.mk.injEq] at h
                rw [← h.1]
                exact decodeEscape_unit hi rest2 unit false hlt hd
              · rename_i unit hd
                simp only [Option.some.injEq, Prod.mk.injEq] at h
                rw [← h.1]
                exact decodeEscape_unit hi rest2 unit true hlt hd
          · simp at h
        · split at h
          · simp at h
          · rename_i ch hch
            simp only [Option.some.injEq, Prod.mk.injEq] at h
            rw [← h.1]
            exact Or.inl ⟨ch, rfl, simpleEscape_lt _ _ hch⟩
    · simp only [Option.some.injEq, Prod.mk.injEq] at h
      rw [← h.1]
      exact Or.inl ⟨c, rfl, h4⟩
    · split at h
      · simp only [Option.some.injEq, Prod.mk.injEq] at h
        rw [← h.1]
        exact replacementChar_unit
      · rename_i rune rest1 hr
        simp only [Option.some.injEq, Prod.mk.injEq] at h
        rw [← h.1]
        obtain ⟨hs, hl, hX⟩ := runeAt_spec _ _ _ hr
        rcases rune with _ | ⟨d, t⟩
        · simp at hl
        · have hd : d = c := by
            simp only [List.cons_append, List.cons.injEq] at hs
            exact hs.1.symm
          subst hd
          exact Or.inr ⟨d, t, rfl, h4, hX⟩

/-- The string the decoder reads from a literal is valid UTF-8. -/
theorem parseStringFuel_valid :
    ∀ (fuel : Nat) (cs s rest : Bytes), parseStringFuel fuel cs = some (s, rest) →
      ∀ n, s.length ≤ n → validUTF8Fuel n s = true := by
  intro fuel
  induction fuel with
  | zero => intro cs s rest h; simp [parseStringFuel] at h
  | succ fuel ih =>
    intro cs s rest h
    simp only [parseStringFuel] at h
    split at h
    · simp at h
    · simp only [Option.some.injEq, Prod.mk.injEq] at h
      rw [← h.1]
      intro n _
      exact validUTF8Fuel_nil n
    · rename_i unit rest1 hstep
      cases hp : parseStringFuel fuel rest1 with
      | none => simp [hp] at h
      | some r =>
        obtain ⟨s1, r1⟩ := r
        simp only [hp, Option.map_some', Option.some.injEq, Prod.mk.injEq] at h
        rw [← h.1]
        exact validUTF8Fuel_unit unit s1 (stringStep_unit _ _ _ hstep) (ih rest1 s1 r1 hp)

theorem parseString_valid (cs s rest : Bytes) (h : parseString cs = some (s, rest)) :
    validUTF8 s = true :=
  parseStringFuel_valid _ cs s rest h s.length (le_refl _)

theorem parseLiteral_not_str (name : Bytes) (v : JValue) (cs : Bytes) (s rest : Bytes)
    (hv : ∀ t, v ≠ JValue.str t) : parseLiteral name v cs ≠ some (JValue.str s, rest) := by
  intro h
  simp only [parseLiteral] at h
  split_ifs at h
  simp only [Option.some.injEq, Prod.mk.injEq] at h
  exact hv s h.1

/-- A string value the parser returns is valid UTF-8. -/
theorem parseValue_str_valid (fuel : Nat) (cs s rest : Bytes)
    (h : parseValue fuel cs = some (JValue.str s, rest)) : validUTF8 s = true := by
  rcases fuel with _ | fuel
  · simp [parseValue] at h
  · rcases cs with _ | ⟨c, cs⟩
    · simp [parseValue] at h
    · simp only [parseValue] at h
      split_ifs at h with h1 h2 h3 h4 h5 h6
      · split at h
        · simp at h
        · split_ifs at h
          · simp at h
          · obtain ⟨r, _, he⟩ := Iff.mp Option.map_eq_some' h
            simp at he
      · split at h
        · simp at h
        · split_ifs at h
          · simp at h
          · obtain ⟨r, _, he⟩ := Iff.mp Option.map_eq_some' h
            simp at he
      · cases hp : parseString cs with
        | none => simp [hp] at h
        | some r =>
          obtain ⟨s1, r1⟩ := r
          simp only [hp, Option.map_some', Option.some.injEq, Prod.mk.injEq,
            JValue.str.injEq] at h
          rw [← h.1]
          exact parseString_valid _ _ _ hp
      · exact absurd h (parseLiteral_not_str _ _ _ _ _ (fun t e => by cases e))
      · exact absurd h (parseLiteral_not_str _ _ _ _ _ (fun t e => by cases e))
      · exact absurd h (parseLiteral_not_str _ _ _ _ _ (fun t e => by cases e))
      · cases hp : parseNumber (c :: cs) with
        | none => simp [hp] at h
        | some r => simp [hp] at h

/-- Every string value among the members the parser returns is valid UTF-8. -/
theorem parseMembers_str_valid :
    ∀ (fuel : Nat) (cs : Bytes) (ms : List (Bytes × JValue)) (rest : Bytes),
      parseMembers fuel cs = some (ms, rest) →
      ∀ k s, (k, JValue.str s) ∈ ms → validUTF8 s = true := by
  intro fuel
  induction fuel with
  | zero => intro cs ms rest h; simp [parseMembers] at h
  | succ fuel ih =>
    intro cs ms rest h k s hmem
    rcases cs with _ | ⟨q, cs⟩
    · simp [parseMembers] at h
    · simp only [parseMembers] at h
      split_ifs at h with hq
      split at h
      · simp at h
      · rename_i key rest1 hkey
        split at h
        · simp at h
        · rename_i colon rest2 hcolon
          split_ifs at h with hc
          split at h
          · simp at h
          · rename_i v rest3 hv
            split at h
            · simp at h
            · rename_i sep rest4 hsep
              split_ifs at h with h1 h2
              · cases hp : parseMembers fuel (skipSpace rest4) with
                | none => simp [hp] at h
                | some r =>
                  obtain ⟨ms1, r1⟩ := r
                  simp only [hp, Option.map_some', Option.some.injEq, Prod.mk.injEq] at h
                  rw [← h.1] at hmem
                  rcases List.mem_cons.1 hmem with heq | hin
                  · simp only [Prod.mk.injEq] at heq
                    rw [← heq.2] at hv
                    exact parseValue_str_valid _ _ _ _ hv
                  · exact ih _ _ _ hp k s hin
              · simp only [Option.some.injEq, Prod.mk.injEq] at h
                rw [← h.1] at hmem
                simp only [List.mem_singleton, Prod.mk.injEq] at hmem
                rw [← hmem.2] at hv
                exact parseValue_str_valid _ _ _ _ hv

theorem setField_valid (ic : IC) (key : Bytes) (v : JValue)
    (hv : ∀ s, v = JValue.str s → validUTF8 s = true)
    (hic : validUTF8 ic.Identifier = true ∧ validUTF8 ic.Type_ = true ∧
      validUTF8 ic.CRP = true ∧ validUTF8 ic.Owner = true) :
    validUTF8 (setField ic key v).Identifier = true ∧
      validUTF8 (setField ic key v).Type_ = true ∧
      validUTF8 (setField ic key v).CRP = true ∧ validUTF8 (setField ic key v).Owner = true := by
  cases v with
  | str s =>
    have hs := hv s rfl
    simp only [setField]
    split
    · exact ⟨hs, hic.2.1, hic.2.2.1, hic.2.2.2⟩
    · exact ⟨hic.1, hs, hic.2.2.1, hic.2.2.2⟩
    · exact ⟨hic.1, hic.2.1, hs, hic.2.2.2⟩
    · exact ⟨hic.1, hic.2.1, hic.2.2.1, hs⟩
    · exact hic
  | _ => exact hic

theorem foldl_setField_valid (ms : List (Bytes × JValue)) :
    ∀ ic : IC, (∀ k s, (k, JValue.str s) ∈ ms → validUTF8 s = true) →
      (validUTF8 ic.Identifier = true ∧ validUTF8 ic.Type_ = true ∧
        validUTF8 ic.CRP = true ∧ validUTF8 ic.Owner = true) →
      validUTF8 (ms.foldl (fun acc m => setField acc m.1 m.2) ic).Identifier = true ∧
        validUTF8 (ms.foldl (fun acc m => setField acc m.1 m.2) ic).Type_ = true ∧
        validUTF8 (ms.foldl (fun acc m => setField acc m.1 m.2) ic).CRP = true ∧
        validUTF8 (ms.foldl (fun acc m => setField acc m.1 m.2) ic).Owner = true := by
  induction ms with
  | nil => intro ic _ hic; exact hic
  | cons m ms ih =>
    intro ic hms hic
    simp only [List.foldl_cons]
    apply ih _ (fun k s hk => hms k s (List.mem_cons_of_mem _ hk))
    apply setField_valid _ _ _ _ hic
    intro s hs
    exact hms m.1 s (by rw [← hs]; exact List.mem_cons_self _ _)

/-- The fields of a record after `json.Unmarshal` are valid UTF-8 when they
were before: every string the decoder stores is. -/
theorem jsonUnmarshal_valid (data : Bytes) (ic : IC)
    (hic : validUTF8 ic.Identifier = true ∧ validUTF8 ic.Type_ = true ∧
      validUTF8 ic.CRP = true ∧ validUTF8 ic.Owner = true) :
    validUTF8 (jsonUnmarshal data ic).Identifier = true ∧
      validUTF8 (jsonUnmarshal data ic).Type_ = true ∧
      validUTF8 (jsonUnmarshal data ic).CRP = true ∧
      validUTF8 (jsonUnmarshal data ic).Owner = true := by
  unfold jsonUnmarshal
  split
  · rename_i members hp
    apply foldl_setField_valid _ _ _ hic
    intro k s hk
    simp only [parseJSON] at hp
    split at hp
    · simp at hp
    · rename_i v rest hv
      split_ifs at hp
      simp only [Option.some.injEq] at hp
      subst hp
      rcases hfuel : data.length + 1 with _ | fuel
      · omega
      · rw [hfuel] at hv
        rcases hcs : skipSpace data with _ | ⟨c, cs⟩
        · rw [hcs] at hv
          simp [parseValue] at hv
        · rw [hcs] at hv
          simp only [parseValue] at hv
          split_ifs at hv with h1 h2 h3 h4 h5 h6
          · split at hv
            · simp at hv
            · split_ifs at hv
              · simp only [Option.some.injEq, Prod.mk.injEq, JValue.object.injEq] at hv
                rw [← hv.1] at hk
                simp at hk
              · obtain ⟨r, hm, he⟩ := Iff.mp Option.map_eq_some' hv
                obtain ⟨ms1, r1⟩ := r
                simp only [Prod.mk.injEq, JValue.object.injEq] at he
                rw [← he.1] at hk
                exact parseMembers_str_valid _ _ _ _ hm k s hk
          · split at hv
            · simp at hv
            · split_ifs at hv
              · simp at hv
              · obtain ⟨r, _, he⟩ := Iff.mp Option.map_eq_some' hv
                simp at he
          · cases hm : parseString cs with
            | none => simp [hm] at hv
            | some r => simp [hm] at hv
          · simp only [parseLiteral] at hv
            split_ifs at hv
            simp at hv
          · simp only [parseLiteral] at hv
            split_ifs at hv
            simp at hv
          · simp only [parseLiteral] at hv
            split_ifs at hv
            simp at hv
          · cases hm : parseNumber (c :: cs) with
            | none => simp [hm] at hv
            | some r => simp [hm] at hv
  · exact hic

/-- The record decoded from any stored bytes, starting from the zero value,
has valid UTF-8 in every field. -/
theorem jsonUnmarshal_zero_valid (data : Bytes) :
    validUTF8 (jsonUnmarshal data IC.zero).Identifier = true ∧
      validUTF8 (jsonUnmarshal data IC.zero).Type_ = true ∧
      validUTF8 (jsonUnmarshal data IC.zero).CRP = true ∧
      validUTF8 (jsonUnmarshal data IC.zero).Owner = true :=
  jsonUnmarshal_valid data IC.zero ⟨rfl, rfl, rfl, rfl⟩
/-! ## Ownership transfer and creation -/

set_option maxRecDepth 100000 in
/-- Counterexample to C1 as stated: `alice` owns the record at `IC7` and
transfers it to the new owner given as the single byte `0xFF`, which is not
valid UTF-8.  The call succeeds, but `json.Marshal` writes the escape of U+FFFD
for that byte, so the owner decoded from the stored value is the encoding of
U+FFFD and not the argument: the caller is the owner, and yet it is not the
case that the call succeeds and leaves owner = newOwner. -/
theorem changeICOwner_owner_not_utf8 :
    GetID (createIC (freshStub org1Alice)
      [utf8 "IC7", utf8 "x", utf8 "laptop", utf8 "42", utf8 "carol"]).2 =
        Except.ok (utf8 "alice") ∧
    utf8 "alice" = (jsonUnmarshal (((createIC (freshStub org1Alice)
      [utf8 "IC7", utf8 "x", utf8 "laptop", utf8 "42", utf8 "carol"]).2.ledger.get
        (utf8 "IC7")).getD []) IC.zero).Owner ∧
    (changeICOwner (createIC (freshStub org1Alice)
      [utf8 "IC7", utf8 "x", utf8 "laptop", utf8 "42", utf8 "carol"]).2
        [utf8 "IC7", [0xFF]]).1 = Response.success [] ∧
    (jsonUnmarshal (((changeICOwner (createIC (freshStub org1Alice)
      [utf8 "IC7", utf8 "x", utf8 "laptop", utf8 "42", utf8 "carol"]).2
        [utf8 "IC7", [0xFF]]).2.ledger.get (utf8 "IC7")).getD []) IC.zero).Owner =
      [0xEF, 0xBF, 0xBD] ∧
    ¬ (((changeICOwner (createIC (freshStub org1Alice)
          [utf8 "IC7", utf8 "x", utf8 "laptop", utf8 "42", utf8 "carol"]).2
            [utf8 "IC7", [0xFF]]).1 = Response.success [] ∧
        (jsonUnmarshal (((changeICOwner (createIC (freshStub org1Alice)
          [utf8 "IC7", utf8 "x", utf8 "laptop", utf8 "42", utf8 "carol"]).2
            [utf8 "IC7", [0xFF]]).2.ledger.get (utf8 "IC7")).getD []) IC.zero).Owner = [0xFF])
      ↔ utf8 "alice" = (jsonUnmarshal (((createIC (freshStub org1Alice)
          [utf8 "IC7", utf8 "x", utf8 "laptop", utf8 "42", utf8 "carol"]).2.ledger.get
            (utf8 "IC7")).getD []) IC.zero).Owner) :=
  ⟨rfl, by decide, by decide, by decide, by decide⟩

/-- Claim C1, amended. On a store whose get and put at `key` report no error,
for every ledger state, caller id and arguments `[key, newOwner]`:
`changeICOwner` returns success and leaves at `key` a record whose owner is
`newOwner` coerced to valid UTF-8 (every byte that is not part of a valid
encoding replaced by U+FFFD) if and only if the caller's id equals the owner
decoded from the value stored at `key`; when `newOwner` is valid UTF-8 the owner
left is `newOwner` itself.  Otherwise the call returns the error "Ownership
transfer not permitted by the sender..." and the stub, hence the value stored
at `key`, is what it was. -/
theorem changeICOwner_iff_caller_is_owner (stub : Stub) (id key newOwner : Bytes)
    (hid : GetID stub = Except.ok id)
    (hget : stub.getFault key = none)
    (hput : ∀ v, stub.putFault key v = none) :
    (((changeICOwner stub [key, newOwner]).1 = Response.success [] ∧
        (jsonUnmarshal (((changeICOwner stub [key, newOwner]).2.ledger.get key).getD [])
          IC.zero).Owner = toValidUTF8 newOwner)
      ↔ id = (jsonUnmarshal ((stub.ledger.get key).getD []) IC.zero).Owner) ∧
    (validUTF8 newOwner = true →
      (((changeICOwner stub [key, newOwner]).1 = Response.success [] ∧
          (jsonUnmarshal (((changeICOwner stub [key, newOwner]).2.ledger.get key).getD [])
            IC.zero).Owner = newOwner)
        ↔ id = (jsonUnmarshal ((stub.ledger.get key).getD []) IC.zero).Owner)) ∧
    (id ≠ (jsonUnmarshal ((stub.ledger.get key).getD []) IC.zero).Owner →
      (changeICOwner stub [key, newOwner]).1 =
          Response.error "Ownership transfer not permitted by the sender..." ∧
        (changeICOwner stub [key, newOwner]).2 = stub ∧
        (changeICOwner stub [key, newOwner]).2.ledger.get key = stub.ledger.get key) := by
  have hstate : (GetState stub key).1 = (stub.ledger.get key).getD [] := by
    simp [GetState, hget]
  by_cases hown : id = (jsonUnmarshal ((stub.ledger.get key).getD []) IC.zero).Owner
  · have hout : changeICOwner stub [key, newOwner] =
        (Response.success [], (PutState stub key (jsonMarshal
          { jsonUnmarshal ((stub.ledger.get key).getD []) IC.zero with Owner := newOwner })).2) := by
      simp [changeICOwner, hid, hstate, ← hown]
    have hafter : (jsonUnmarshal (((PutState stub key (jsonMarshal
          { jsonUnmarshal ((stub.ledger.get key).getD []) IC.zero with
            Owner := newOwner })).2.ledger.get key).getD []) IC.zero).Owner =
        toValidUTF8 newOwner := by
      simp only [PutState_get_same stub key _ (hput _), Option.getD_some,
        jsonUnmarshal_jsonMarshal]
    rw [hout]
    refine ⟨⟨fun _ => hown, fun _ => ⟨rfl, hafter⟩⟩, fun hv => ?_, fun h => absurd hown h⟩
    rw [toValidUTF8_of_valid _ hv] at hafter
    exact ⟨fun _ => hown, fun _ => ⟨rfl, hafter⟩⟩
  · have hout : changeICOwner stub [key, newOwner] =
        (Response.error "Ownership transfer not permitted by the sender...", stub) := by
      have hne : ¬ (jsonUnmarshal ((stub.ledger.get key).getD []) IC.zero).Owner = id :=
        fun e => hown e.symm
      simp [changeICOwner, hid, hstate, hne]
    rw [hout]
    refine ⟨⟨fun h => ?_, fun h => absurd h hown⟩, fun _ => ⟨fun h => ?_, fun h => absurd h hown⟩,
      fun _ => ⟨rfl, rfl, rfl⟩⟩
    · exact absurd h.1 (by simp)
    · exact absurd h.1 (by simp)

set_option maxRecDepth 100000 in
/-- Witness of the amended C1: `alice` transfers the record she created at `IC7`
to `bob`. -/
theorem changeICOwner_iff_caller_is_owner_witness :
    GetID (createIC (freshStub org1Alice)
      [utf8 "IC7", utf8 "x", utf8 "laptop", utf8 "42", utf8 "carol"]).2 =
        Except.ok (utf8 "alice") ∧
    validUTF8 (utf8 "bob") = true ∧
    (((changeICOwner (createIC (freshStub org1Alice)
          [utf8 "IC7", utf8 "x", utf8 "laptop", utf8 "42", utf8 "carol"]).2
          [utf8 "IC7", utf8 "bob"]).1 = Response.success [] ∧
        (jsonUnmarshal (((changeICOwner
            (createIC (freshStub org1Alice)
              [utf8 "IC7", utf8 "x", utf8 "laptop", utf8 "42", utf8 "carol"]).2
            [utf8 "IC7", utf8 "bob"]).2.ledger.get (utf8 "IC7")).getD []) IC.zero).Owner =
          utf8 "bob")
      ↔ utf8 "alice" = (jsonUnmarshal
          (((createIC (freshStub org1Alice)
            [utf8 "IC7", utf8 "x", utf8 "laptop", utf8 "42", utf8 "carol"]).2.ledger.get
            (utf8 "IC7")).getD []) IC.zero).Owner) :=
  ⟨rfl, by decide, (changeICOwner_iff_caller_is_owner
    (createIC (freshStub org1Alice)
      [utf8 "IC7", utf8 "x", utf8 "laptop", utf8 "42", utf8 "carol"]).2
    (utf8 "alice") (utf8 "IC7") (utf8 "bob") rfl rfl (fun _ => rfl)).2.1 (by decide)⟩

set_option maxRecDepth 100000 in
/-- Counterexample to C2 as stated, in its two parts.  A caller of `Org1MSP`
whose id the identity library cannot read does not get a success: `createIC`
returns the error of `cid.GetID`, and nothing is written.  And when `alice`
creates a record whose identifier is the single byte `0xFF`, which is not valid
UTF-8, the stored value decodes to the identifier U+FFFD, not to `args[1]`. -/
theorem createIC_unreadable_id_or_not_utf8 :
    GetMSPID (freshStub org1Unreadable) = Except.ok (utf8 "Org1MSP") ∧
    createIC (freshStub org1Unreadable)
        [utf8 "IC7", utf8 "x", utf8 "laptop", utf8 "42", utf8 "carol"] =
      (Response.error "failed to get the id", freshStub org1Unreadable) ∧
    GetMSPID (freshStub org1Alice) = Except.ok (utf8 "Org1MSP") ∧
    (createIC (freshStub org1Alice)
        [utf8 "IC7", [0xFF], utf8 "laptop", utf8 "42", utf8 "carol"]).1 =
      Response.success [] ∧
    jsonUnmarshal (((createIC (freshStub org1Alice)
        [utf8 "IC7", [0xFF], utf8 "laptop", utf8 "42", utf8 "carol"]).2.ledger.get
          (utf8 "IC7")).getD []) IC.zero =
      { Identifier := [0xEF, 0xBF, 0xBD], Type_ := utf8 "laptop", CRP := utf8 "42",
        Owner := utf8 "alice" } ∧
    (jsonUnmarshal (((createIC (freshStub org1Alice)
        [utf8 "IC7", [0xFF], utf8 "laptop", utf8 "42", utf8 "carol"]).2.ledger.get
          (utf8 "IC7")).getD []) IC.zero).Identifier ≠ [0xFF] :=
  ⟨rfl, rfl, rfl, by decide, by decide, by decide⟩

/-- Claim C2, amended. For every five arguments `[storageKey, identifier,
category, code, ownerArgument]` and every caller of organisation `Org1MSP` (on
a store whose put at `storageKey` reports no error): if the caller's id can be
read, `createIC` succeeds and the value stored at `storageKey` afterwards
decodes to the record of the given identifier, type and crp with the caller's
id as owner, each coerced to valid UTF-8, hence to exactly these four strings
when they are valid UTF-8; if the id cannot be read, `createIC` returns the
error of `cid.GetID` and leaves the ledger as it was.  The outcome is the same
whatever the fifth argument is. -/
theorem createIC_owner_is_caller (stub : Stub) (storageKey identifier category code
    ownerArgument : Bytes)
    (hmsp : GetMSPID stub = Except.ok (utf8 "Org1MSP"))
    (hput : ∀ v, stub.putFault storageKey v = none) :
    (∀ id, GetID stub = Except.ok id →
      (createIC stub [storageKey, identifier, category, code, ownerArgument]).1
          = Response.success [] ∧
      ∃ value,
        (createIC stub [storageKey, identifier, category, code, ownerArgument]).2.ledger.get
            storageKey = some value ∧
        jsonUnmarshal value IC.zero =
          { Identifier := toValidUTF8 identifier, Type_ := toValidUTF8 category,
            CRP := toValidUTF8 code, Owner := toValidUTF8 id } ∧
        (validUTF8 identifier = true → validUTF8 category = true →
          validUTF8 code = true → validUTF8 id = true →
          jsonUnmarshal value IC.zero =
            { Identifier := identifier, Type_ := category, CRP := code, Owner := id })) ∧
    (∀ e, GetID stub = Except.error e →
      createIC stub [storageKey, identifier, category, code, ownerArgument] =
        (Response.error e, stub)) ∧
    (∀ other : Bytes,
      createIC stub [storageKey, identifier, category, code, other] =
        createIC stub [storageKey, identifier, category, code, ownerArgument]) := by
  refine ⟨fun id hid => ?_, fun e he => ?_, fun other => ?_⟩
  · have hout : createIC stub [storageKey, identifier, category, code, ownerArgument] =
        (Response.success [], (PutState stub storageKey (jsonMarshal
          { Identifier := identifier, Type_ := category, CRP := code, Owner := id })).2) := by
      simp [createIC, hmsp, hid]
    rw [hout]
    refine ⟨rfl, _, PutState_get_same stub storageKey _ (hput _),
      jsonUnmarshal_jsonMarshal _ _, fun h1 h2 h3 h4 => ?_⟩
    exact jsonUnmarshal_jsonMarshal_valid _ _ h1 h2 h3 h4
  · simp [createIC, hmsp, he]
  · simp [createIC]

set_option maxRecDepth 100000 in
/-- Witness of the amended C2: `alice` of `Org1MSP` creates a record, naming
`carol` as owner. -/
theorem createIC_owner_is_caller_witness :
    GetMSPID (freshStub org1Alice) = Except.ok (utf8 "Org1MSP") ∧
    GetID (freshStub org1Alice) = Except.ok (utf8 "alice") ∧
    (∃ value,
      (createIC (freshStub org1Alice)
        [utf8 "IC7", utf8 "x", utf8 "laptop", utf8 "42", utf8 "carol"]).2.ledger.get
          (utf8 "IC7") = some value ∧
      jsonUnmarshal value IC.zero =
        { Identifier := utf8 "x", Type_ := utf8 "laptop", CRP := utf8 "42",
          Owner := utf8 "alice" }) :=
  ⟨rfl, rfl, (((createIC_owner_is_caller (freshStub org1Alice) (utf8 "IC7") (utf8 "x")
    (utf8 "laptop") (utf8 "42") (utf8 "carol") rfl (fun _ => rfl)).1 (utf8 "alice") rfl).2).imp
      (fun _ h => ⟨h.1, h.2.2 (by decide) (by decide) (by decide) (by decide)⟩)⟩

/-- Claim C3. For every ledger state, every argument list and every caller whose
organisation is not `Org1MSP`, `createIC` returns the error "Assert error" and
leaves the ledger as it was. -/
theorem createIC_other_org_rejected (stub : Stub) (mspid : Bytes) (args : List Bytes)
    (hmsp : GetMSPID stub = Except.ok mspid) (hne : mspid ≠ utf8 "Org1MSP") :
    createIC stub args = (Response.error "Assert error", stub) := by
  simp [createIC, hmsp, hne]

/-- Witness of C3: `bob` of `Org2MSP` tries to create a record on the seeded
ledger. -/
theorem createIC_other_org_rejected_witness :
    GetMSPID (seededStub org2Bob) = Except.ok (utf8 "Org2MSP") ∧ (utf8 "Org2MSP") ≠ utf8 "Org1MSP" ∧
    createIC (seededStub org2Bob) [utf8 "IC7", utf8 "x", utf8 "laptop", utf8 "42", utf8 "bob"] =
      (Response.error "Assert error", seededStub org2Bob) :=
  ⟨rfl, by decide, createIC_other_org_rejected (seededStub org2Bob) (utf8 "Org2MSP")
    [utf8 "IC7", utf8 "x", utf8 "laptop", utf8 "42", utf8 "bob"] rfl (by decide)⟩


/-! ## The scan loops -/

theorem writeMember_eq (buffer key value : Bytes) :
    writeMember buffer key value = buffer ++ memberText (key, value) := by
  have h1 : utf8 "\x7b\"Key\":" ++ utf8 "\"" = utf8 "\x7b\"Key\":\"" := by decide
  have h2 : utf8 "\"" ++ utf8 ", \"Record\":" = utf8 "\", \"Record\":" := by decide
  simp only [writeMember, memberText, List.append_assoc]
  rw [← List.append_assoc (utf8 "\x7b\"Key\":") (utf8 "\""), h1,
    ← List.append_assoc (utf8 "\"") (utf8 ", \"Record\":"), h2]

theorem intercalate_cons_cons (sep a b : Bytes) (l : List Bytes) :
    sep.intercalate (a :: b :: l) = a ++ sep ++ sep.intercalate (b :: l) := by
  simp [List.intercalate, List.intersperse]

theorem queryAllICsLoop_written (kv : Bytes × Bytes) (kvs : List (Bytes × Bytes))
    (buffer : Bytes) :
    queryAllICsLoop (kvs.map Except.ok) (buffer ++ memberText kv) true =
      Response.success
        (buffer ++ (utf8 ",").intercalate ((kv :: kvs).map memberText) ++ utf8 "]") := by
  induction kvs generalizing buffer kv with
  | nil => simp [queryAllICsLoop, List.intercalate, List.intersperse]
  | cons kv2 kvs ih =>
    simp only [List.map_cons, queryAllICsLoop, if_true, writeMember_eq]
    have h := ih kv2 (buffer ++ memberText kv ++ utf8 ",")
    rw [intercalate_cons_cons]
    simp only [List.map_cons, List.append_assoc] at h ⊢
    exact h

theorem queryAllICsLoop_ok (kvs : List (Bytes × Bytes)) :
    queryAllICsLoop (kvs.map Except.ok) (utf8 "[") false = Response.success (arrayText kvs) := by
  cases kvs with
  | nil => simp [queryAllICsLoop, arrayText, List.intercalate, List.intersperse]
  | cons kv kvs =>
    simp only [List.map_cons, queryAllICsLoop, writeMember_eq]
    exact queryAllICsLoop_written kv kvs (utf8 "[")

theorem queryAllICsLoop_error (kvs : List (Bytes × Bytes)) (e : String)
    (rest : List (Except String (Bytes × Bytes))) (buffer : Bytes) (written : Bool) :
    queryAllICsLoop (kvs.map Except.ok ++ Except.error e :: rest) buffer written =
      Response.error e := by
  induction kvs generalizing buffer written with
  | nil => simp [queryAllICsLoop]
  | cons kv kvs ih =>
    simp only [List.map_cons, List.cons_append, queryAllICsLoop]
    exact ih _ _

theorem queryAllICsAttrLoop_error (f : Bytes) (kvs : List (Bytes × Bytes)) (e : String)
    (rest : List (Except String (Bytes × Bytes))) (buffer : Bytes) (written : Bool) :
    queryAllICsAttrLoop f (kvs.map Except.ok ++ Except.error e :: rest) buffer written =
      Response.error e := by
  induction kvs generalizing buffer written with
  | nil => simp [queryAllICsAttrLoop]
  | cons kv kvs ih =>
    simp only [List.map_cons, List.cons_append, queryAllICsAttrLoop]
    split_ifs <;> exact ih _ _

theorem queryAllICsAttrLoop_filter (f : Bytes) (kvs : List (Bytes × Bytes))
    (buffer : Bytes) (written : Bool) :
    queryAllICsAttrLoop f (kvs.map Except.ok) buffer written =
      queryAllICsLoop
        ((kvs.filter (fun kv => stringsContains (jsonUnmarshal kv.2 IC.zero).Identifier f)).map
          Except.ok) buffer written := by
  induction kvs generalizing buffer written with
  | nil => simp [queryAllICsAttrLoop, queryAllICsLoop]
  | cons kv kvs ih =>
    by_cases h : stringsContains (jsonUnmarshal kv.2 IC.zero).Identifier f = true
    · simp only [List.map_cons, queryAllICsAttrLoop, List.filter_cons, h, if_true,
        queryAllICsLoop, ih]
    · simp only [List.map_cons, queryAllICsAttrLoop, List.filter_cons, h, if_false]
      exact ih _ _

theorem iteratorSteps_noFault (nextFault : Nat → Option String) (h : ∀ i, nextFault i = none)
    (i : Nat) (kvs : List (Bytes × Bytes)) :
    iteratorSteps nextFault i kvs = kvs.map Except.ok := by
  induction kvs generalizing i with
  | nil => rfl
  | cons kv kvs ih => simp [iteratorSteps, h, ih]

theorem GetStateByRange_noFault (stub : Stub) (startKey endKey : Bytes)
    (hrange : stub.rangeFault startKey endKey = none) (hnext : ∀ i, stub.nextFault i = none) :
    GetStateByRange stub startKey endKey =
      Except.ok ((stub.ledger.range startKey endKey).map Except.ok) := by
  simp [GetStateByRange, hrange, iteratorSteps_noFault _ hnext]

theorem AssertAttributeValue_a (stub : Stub)
    (hattr : stub.creator.attrs "icidentifier" = Except.ok (some (utf8 "a"))) :
    GetAttributeValue stub "icidentifier" = Except.ok (utf8 "a", true) ∧
      AssertAttributeValue stub "icidentifier" (utf8 "a") = none := by
  have h : GetAttributeValue stub "icidentifier" = Except.ok (utf8 "a", true) := by
    simp [GetAttributeValue, hattr]
  exact ⟨h, by simp [AssertAttributeValue, h]⟩

theorem initLedgerLoop_get_other (key : Bytes) (l : List IC) :
    ∀ (i : Nat) (stub : Stub), (∀ j, j < l.length → key ≠ utf8 "IC" ++ utf8 (toString (i + j))) →
      (initLedgerLoop i l stub).ledger.get key = stub.ledger.get key := by
  induction l with
  | nil => intro i stub _; rfl
  | cons ic l ih =>
    intro i stub h
    simp only [initLedgerLoop]
    rw [ih (i + 1) _ (fun j hj => by
      have := h (j + 1) (by simp; omega)
      rwa [show i + (j + 1) = i + 1 + j by omega] at this)]
    exact PutState_get_other stub _ key _ (by simpa using h 0 (by simp))

theorem initLedgerLoop_putFailing (l : List IC) :
    ∀ (i : Nat) (stub : Stub), (∀ k v, stub.putFault k v ≠ none) →
      initLedgerLoop i l stub = stub := by
  induction l with
  | nil => intro i stub _; rfl
  | cons ic l ih =>
    intro i stub h
    have hp : ∀ k v, (PutState stub k v).2 = stub := by
      intro k v
      unfold PutState
      cases hf : stub.putFault k v with
      | none => exact absurd hf (h k v)
      | some e => rfl
    simp only [initLedgerLoop, hp]
    exact ih _ _ h

/-! ## Store errors -/

/-- Counterexample to C4: behind a store whose puts (or gets) report the error
"ledger unavailable", `createIC` and `changeICOwner` return success although
their put failed, and `queryIC` returns success although its get failed. -/
theorem store_error_not_propagated :
    (PutState (putFailing (freshStub org1Alice)) (utf8 "IC7")
        (jsonMarshal { Identifier := utf8 "x", Type_ := utf8 "laptop", CRP := utf8 "42", Owner := utf8 "alice" })).1
      = some "ledger unavailable" ∧
    (createIC (putFailing (freshStub org1Alice)) [utf8 "IC7", utf8 "x", utf8 "laptop", utf8 "42", utf8 "carol"]).1
      = Response.success [] ∧
    (PutState (putFailing (createIC (freshStub org1Alice) [utf8 "IC7", utf8 "x", utf8 "laptop", utf8 "42", utf8 "carol"]).2)
        (utf8 "IC7")
        (jsonMarshal { Identifier := utf8 "x", Type_ := utf8 "laptop", CRP := utf8 "42", Owner := utf8 "bob" })).1
      = some "ledger unavailable" ∧
    (changeICOwner
        (putFailing (createIC (freshStub org1Alice) [utf8 "IC7", utf8 "x", utf8 "laptop", utf8 "42", utf8 "carol"]).2)
        [utf8 "IC7", utf8 "bob"]).1 = Response.success [] ∧
    (GetState (getFailing (seededStub org1Alice)) (utf8 "IC0")).2 = some "ledger unavailable" ∧
    (queryIC (getFailing (seededStub org1Alice)) [utf8 "IC0"]).1 = Response.success [] := by
  decide

/-- Claim C4, amended. An error of the range scan, be it of `GetStateByRange` or
of a `Next` of the iterator, aborts `queryAllICs` and `queryAllICsAttr`, which
return an error result carrying the store's error and no partial output.  The
errors of get and put are dropped: `queryIC` returns success with an empty
payload when its get fails, and `createIC`, `changeICOwner` (called by the
owner) and `initLedger` return success when their puts fail, the ledger being
left as it was. -/
theorem store_error_handling (stub : Stub) :
    (∀ e, stub.rangeFault (utf8 "IC0") (utf8 "IC999") = some e →
      queryAllICs stub = (Response.error e, stub) ∧
      (stub.creator.attrs "icidentifier" = Except.ok (some (utf8 "a")) →
        queryAllICsAttr stub = (Response.error e, stub))) ∧
    (∀ (kvs : List (Bytes × Bytes)) (e : String) (rest : List (Except String (Bytes × Bytes))),
      GetStateByRange stub (utf8 "IC0") (utf8 "IC999") =
        Except.ok (kvs.map Except.ok ++ Except.error e :: rest) →
      queryAllICs stub = (Response.error e, stub) ∧
      (stub.creator.attrs "icidentifier" = Except.ok (some (utf8 "a")) →
        queryAllICsAttr stub = (Response.error e, stub))) ∧
    (∀ key e, stub.getFault key = some e →
      queryIC stub [key] = (Response.success [], stub)) ∧
    (∀ args id, GetMSPID stub = Except.ok (utf8 "Org1MSP") → GetID stub = Except.ok id →
      args.length = 5 → (∀ v, stub.putFault (args.getD 0 []) v ≠ none) →
      createIC stub args = (Response.success [], stub)) ∧
    (∀ key newOwner id, GetID stub = Except.ok id →
      id = (jsonUnmarshal (GetState stub key).1 IC.zero).Owner →
      (∀ v, stub.putFault key v ≠ none) →
      changeICOwner stub [key, newOwner] = (Response.success [], stub)) ∧
    ((∀ k v, stub.putFault k v ≠ none) → initLedger stub = (Response.success [], stub)) := by
  have hp : ∀ k, (∀ v, stub.putFault k v ≠ none) → ∀ v, (PutState stub k v).2 = stub := by
    intro k h v
    unfold PutState
    cases hf : stub.putFault k v with
    | none => exact absurd hf (h v)
    | some e => rfl
  refine ⟨?_, ?_, ?_, ?_, ?_, ?_⟩
  · intro e he
    have hs : GetStateByRange stub (utf8 "IC0") (utf8 "IC999") = Except.error e := by
      simp [GetStateByRange, he]
    refine ⟨by simp [queryAllICs, hs], fun hattr => ?_⟩
    obtain ⟨h1, h2⟩ := AssertAttributeValue_a stub hattr
    simp [queryAllICsAttr, h1, h2, hs]
  · intro kvs e rest hs
    refine ⟨by simp [queryAllICs, hs, queryAllICsLoop_error], fun hattr => ?_⟩
    obtain ⟨h1, h2⟩ := AssertAttributeValue_a stub hattr
    simp [queryAllICsAttr, h1, h2, hs, queryAllICsAttrLoop_error]
  · intro key e he
    simp [queryIC, GetState, he]
  · intro args id hmsp hid hlen hput
    simp only [createIC, hmsp, hid, hlen, hp _ hput, bne_self_eq_false, Bool.false_eq_true,
      if_false]
  · intro key newOwner id hid hown hput
    simp [changeICOwner, hid, ← hown, hp _ hput]
  · intro hput
    simp [initLedger, initLedgerLoop_putFailing ics 0 stub hput]

/-- Witness of the amended C4: a failing range scan aborts `queryAllICs` on the
seeded ledger with the store's error. -/
theorem store_error_handling_witness :
    (scanFailing (seededStub org1Alice)).rangeFault (utf8 "IC0") (utf8 "IC999") = some "ledger unavailable" ∧
    queryAllICs (scanFailing (seededStub org1Alice)) =
      (Response.error "ledger unavailable", scanFailing (seededStub org1Alice)) :=
  ⟨rfl, ((store_error_handling (scanFailing (seededStub org1Alice))).1
    "ledger unavailable" rfl).1⟩


/-! ## Which calls change a stored value -/

/-- Counterexample to C5: on the seeded ledger the key `IC0` holds a record, and
`createIC` with storage key `IC0` replaces it; likewise `initLedger` replaces
the record `createIC` stored at `IC0`. -/
theorem createIC_overwrites_stored_record :
    (seededStub org1Alice).ledger.get (utf8 "IC0") =
      some (utf8 "\x7b\"identifier\":\"a\",\"type\":\"laptop\",\"crp\":\"1234\",\"owner\":\"Org1\"\x7d") ∧
    (createIC (seededStub org1Alice) [utf8 "IC0", utf8 "x", utf8 "server", utf8 "42", utf8 "carol"]).2.ledger.get (utf8 "IC0") =
      some (utf8 "\x7b\"identifier\":\"x\",\"type\":\"server\",\"crp\":\"42\",\"owner\":\"alice\"\x7d") ∧
    (createIC (seededStub org1Alice) [utf8 "IC0", utf8 "x", utf8 "server", utf8 "42", utf8 "carol"]).2.ledger.get (utf8 "IC0") ≠
      (seededStub org1Alice).ledger.get (utf8 "IC0") ∧
    (initLedger (createIC (freshStub org1Alice) [utf8 "IC0", utf8 "x", utf8 "server", utf8 "42", utf8 "carol"]).2).2.ledger.get
        (utf8 "IC0") ≠
      (createIC (freshStub org1Alice) [utf8 "IC0", utf8 "x", utf8 "server", utf8 "42", utf8 "carol"]).2.ledger.get (utf8 "IC0") := by
  decide

/-- Claim C5, amended. The read operations `queryIC`, `queryAllICs` and
`queryAllICsAttr` leave the ledger as it is, whatever the arguments and the
caller; `createIC` leaves the value at every key other than its storage key
`args[0]` as it is, and `initLedger` the value at every key other than `IC0`,
..., `IC6`. -/
theorem stored_value_frame (stub : Stub) (args : List Bytes) (key : Bytes) :
    (queryIC stub args).2 = stub ∧
    (queryAllICs stub).2 = stub ∧
    (queryAllICsAttr stub).2 = stub ∧
    (key ≠ args.getD 0 [] → (createIC stub args).2.ledger.get key = stub.ledger.get key) ∧
    (key ∉ [utf8 "IC0", utf8 "IC1", utf8 "IC2", utf8 "IC3", utf8 "IC4", utf8 "IC5", utf8 "IC6"] →
      (initLedger stub).2.ledger.get key = stub.ledger.get key) := by
  refine ⟨?_, ?_, ?_, ?_, ?_⟩
  · unfold queryIC
    split_ifs <;> rfl
  · unfold queryAllICs
    split <;> rfl
  · unfold queryAllICsAttr
    split
    · rfl
    · split
      · rfl
      · split <;> rfl
  · intro hkey
    unfold createIC
    repeat' split
    all_goals first | rfl | exact PutState_get_other stub _ key _ hkey
  · intro hkey
    refine initLedgerLoop_get_other key ics 0 stub (fun j hj => ?_)
    have hj7 : j < 7 := hj
    simp only [List.mem_cons, List.mem_singleton, List.not_mem_nil, or_false, not_or] at hkey
    have e0 : utf8 "IC" ++ utf8 (toString (0 + 0)) = utf8 "IC0" := by decide
    have e1 : utf8 "IC" ++ utf8 (toString (0 + 1)) = utf8 "IC1" := by decide
    have e2 : utf8 "IC" ++ utf8 (toString (0 + 2)) = utf8 "IC2" := by decide
    have e3 : utf8 "IC" ++ utf8 (toString (0 + 3)) = utf8 "IC3" := by decide
    have e4 : utf8 "IC" ++ utf8 (toString (0 + 4)) = utf8 "IC4" := by decide
    have e5 : utf8 "IC" ++ utf8 (toString (0 + 5)) = utf8 "IC5" := by decide
    have e6 : utf8 "IC" ++ utf8 (toString (0 + 6)) = utf8 "IC6" := by decide
    interval_cases j
    · rw [e0]; exact hkey.1
    · rw [e1]; exact hkey.2.1
    · rw [e2]; exact hkey.2.2.1
    · rw [e3]; exact hkey.2.2.2.1
    · rw [e4]; exact hkey.2.2.2.2.1
    · rw [e5]; exact hkey.2.2.2.2.2.1
    · rw [e6]; exact hkey.2.2.2.2.2.2

/-- Witness of the amended C5: `createIC` at `IC0` and `initLedger` leave the
value at another key as it is. -/
theorem stored_value_frame_witness :
    (utf8 "IC9") ≠ [utf8 "IC0", utf8 "x", utf8 "server", utf8 "42", utf8 "carol"].getD 0 [] ∧
    (createIC (seededStub org1Alice) [utf8 "IC0", utf8 "x", utf8 "server", utf8 "42", utf8 "carol"]).2.ledger.get (utf8 "IC9") =
      (seededStub org1Alice).ledger.get (utf8 "IC9") :=
  ⟨by decide, (stored_value_frame (seededStub org1Alice) [utf8 "IC0", utf8 "x", utf8 "server", utf8 "42", utf8 "carol"]
    (utf8 "IC9")).2.2.2.1 (by decide)⟩

/-! ## The list operations -/

/-- Claim C6. For every error-free range-scan result `kvs`, `queryAllICs` returns
success with payload `[` + the elements `{"Key":"k", "Record":v}` joined by `,`
in the order of the scan + `]`, each value embedded as it is stored; there is
one element per scanned pair, and the empty scan yields `[]`. -/
theorem queryAllICs_payload (stub : Stub) (kvs : List (Bytes × Bytes))
    (hscan : GetStateByRange stub (utf8 "IC0") (utf8 "IC999") = Except.ok (kvs.map Except.ok)) :
    queryAllICs stub =
      (Response.success (utf8 "[" ++ (utf8 ",").intercalate (kvs.map (fun kv =>
        utf8 "\x7b\"Key\":\"" ++ kv.1 ++ utf8 "\", \"Record\":" ++ kv.2 ++ utf8 "\x7d")) ++ utf8 "]"), stub) ∧
    (kvs.map memberText).length = kvs.length ∧
    (kvs = [] → queryAllICs stub = (Response.success (utf8 "[]"), stub)) := by
  have h : queryAllICs stub = (Response.success (arrayText kvs), stub) := by
    simp [queryAllICs, hscan, queryAllICsLoop_ok]
  refine ⟨h, by simp, fun hnil => ?_⟩
  rw [h, hnil]
  rfl

set_option maxRecDepth 100000 in
/-- Witness of C6: the scan of the ledger holding one record at `IC7`. -/
theorem queryAllICs_payload_witness :
    GetStateByRange (createIC (freshStub org1Alice) [utf8 "IC7", utf8 "x", utf8 "laptop", utf8 "42", utf8 "carol"]).2
        (utf8 "IC0") (utf8 "IC999") =
      Except.ok ([(utf8 "IC7",
        (utf8 "\x7b\"identifier\":\"x\",\"type\":\"laptop\",\"crp\":\"42\",\"owner\":\"alice\"\x7d"))].map
        Except.ok) ∧
    (queryAllICs (createIC (freshStub org1Alice) [utf8 "IC7", utf8 "x", utf8 "laptop", utf8 "42", utf8 "carol"]).2).1 =
      Response.success (utf8 "[" ++ (utf8 ",").intercalate ([(utf8 "IC7",
        (utf8 "\x7b\"identifier\":\"x\",\"type\":\"laptop\",\"crp\":\"42\",\"owner\":\"alice\"\x7d"))].map
        (fun kv => (utf8 "\x7b\"Key\":\"") ++ kv.1 ++ utf8 "\", \"Record\":" ++ kv.2 ++ utf8 "\x7d")) ++ utf8 "]") :=
  ⟨rfl, congrArg Prod.fst (queryAllICs_payload
    (createIC (freshStub org1Alice) [utf8 "IC7", utf8 "x", utf8 "laptop", utf8 "42", utf8 "carol"]).2
    [(utf8 "IC7", utf8 "\x7b\"identifier\":\"x\",\"type\":\"laptop\",\"crp\":\"42\",\"owner\":\"alice\"\x7d")]
    rfl).1⟩


set_option maxRecDepth 100000 in
/-- Claim C7. For every ledger state (the scan reporting no error) and every
caller whose attribute `icidentifier` is exactly `a`, `queryAllICsAttr` returns
success with the array, in the element shape and order of `queryAllICs`, of
exactly those scanned entries whose decoded identifier contains `a`; on the
seeded ledger these are the entries at `IC0` and `IC3`. -/
theorem queryAllICsAttr_filters (stub : Stub)
    (hattr : stub.creator.attrs "icidentifier" = Except.ok (some (utf8 "a")))
    (hrange : stub.rangeFault (utf8 "IC0") (utf8 "IC999") = none)
    (hnext : ∀ i, stub.nextFault i = none) :
    queryAllICsAttr stub =
      (Response.success (arrayText ((stub.ledger.range (utf8 "IC0") (utf8 "IC999")).filter
        (fun kv => stringsContains (jsonUnmarshal kv.2 IC.zero).Identifier (utf8 "a")))), stub) ∧
    (queryAllICs stub).1 = Response.success (arrayText (stub.ledger.range (utf8 "IC0") (utf8 "IC999"))) ∧
    ((seededStub org1Alice).ledger.range (utf8 "IC0") (utf8 "IC999")).filter
        (fun kv => stringsContains (jsonUnmarshal kv.2 IC.zero).Identifier (utf8 "a")) =
      [(utf8 "IC0", utf8 "\x7b\"identifier\":\"a\",\"type\":\"laptop\",\"crp\":\"1234\",\"owner\":\"Org1\"\x7d"),
       (utf8 "IC3", utf8 "\x7b\"identifier\":\"a\",\"type\":\"phone\",\"crp\":\"4567\",\"owner\":\"Org2\"\x7d")] := by
  obtain ⟨h1, h2⟩ := AssertAttributeValue_a stub hattr
  have hs := GetStateByRange_noFault stub (utf8 "IC0") (utf8 "IC999") hrange hnext
  refine ⟨?_, ?_, by decide⟩
  · simp [queryAllICsAttr, h1, h2, hs, queryAllICsAttrLoop_filter, queryAllICsLoop_ok]
  · simp [queryAllICs, hs, queryAllICsLoop_ok]

set_option maxRecDepth 100000 in
/-- Witness of C7: the seeded ledger, queried by a caller with
`icidentifier = a`. -/
theorem queryAllICsAttr_filters_witness :
    (seededStub org1Alice).creator.attrs "icidentifier" = Except.ok (some (utf8 "a")) ∧
    (queryAllICsAttr (seededStub org1Alice)).1 =
      Response.success (arrayText
        [(utf8 "IC0", utf8 "\x7b\"identifier\":\"a\",\"type\":\"laptop\",\"crp\":\"1234\",\"owner\":\"Org1\"\x7d"),
         (utf8 "IC3", utf8 "\x7b\"identifier\":\"a\",\"type\":\"phone\",\"crp\":\"4567\",\"owner\":\"Org2\"\x7d")]) :=
  ⟨rfl, by
    have h := queryAllICsAttr_filters (seededStub org1Alice) rfl rfl (fun _ => rfl)
    rw [h.1, h.2.2]⟩

/-- Claim C8. For every ledger state and every caller whose attribute
`icidentifier` is absent or has a value other than `a`, `queryAllICsAttr`
returns the error "Assert error", which carries no record data, and leaves the
ledger as it is.  Consequently the filter is only applied with the value `a`:
whenever the assertion passes, the attribute value read before it is `a`, and a
success result implies that the caller's attribute is `a`. -/
theorem queryAllICsAttr_requires_a (stub : Stub) (value : Option Bytes)
    (hattr : stub.creator.attrs "icidentifier" = Except.ok value)
    (hvalue : value ≠ some (utf8 "a")) :
    queryAllICsAttr stub = (Response.error "Assert error", stub) ∧
    (∀ (other : Stub) (icidentifier : Bytes) (found : Bool),
      GetAttributeValue other "icidentifier" = Except.ok (icidentifier, found) →
      AssertAttributeValue other "icidentifier" (utf8 "a") = none → icidentifier = utf8 "a") ∧
    (∀ (other : Stub) (payload : Bytes),
      (queryAllICsAttr other).1 = Response.success payload →
      other.creator.attrs "icidentifier" = Except.ok (some (utf8 "a"))) := by
  have hassert : ∀ (other : Stub) (icidentifier : Bytes) (found : Bool),
      GetAttributeValue other "icidentifier" = Except.ok (icidentifier, found) →
      AssertAttributeValue other "icidentifier" (utf8 "a") = none →
      icidentifier = utf8 "a" ∧ found = true := by
    intro other icidentifier found hget hass
    simp only [AssertAttributeValue, hget] at hass
    split_ifs at hass with h1 h2
    simp only [bne_iff_ne, ne_eq, Decidable.not_not] at h2
    simp only [Bool.not_eq_true', Bool.not_eq_false] at h1
    exact ⟨h2, h1⟩
  refine ⟨?_, fun other icidentifier found hget hass => (hassert other _ _ hget hass).1, ?_⟩
  · cases value with
    | none =>
      simp [queryAllICsAttr, GetAttributeValue, AssertAttributeValue, hattr]
    | some v =>
      have hv : v ≠ utf8 "a" := fun e => hvalue (by rw [e])
      simp [queryAllICsAttr, GetAttributeValue, AssertAttributeValue, hattr, hv]
  · intro other payload hsucc
    unfold queryAllICsAttr at hsucc
    cases hget : GetAttributeValue other "icidentifier" with
    | error e => simp [hget] at hsucc
    | ok p =>
      obtain ⟨icidentifier, found⟩ := p
      cases hass : AssertAttributeValue other "icidentifier" (utf8 "a") with
      | some e => simp [hget, hass] at hsucc
      | none =>
        obtain ⟨hv, hf⟩ := hassert other icidentifier found hget hass
        subst hv hf
        unfold GetAttributeValue at hget
        cases hat : other.creator.attrs "icidentifier" with
        | error e => simp [hat] at hget
        | ok o =>
          cases o with
          | none => simp [hat] at hget
          | some v =>
            simp only [hat, Except.ok.injEq, Prod.mk.injEq, and_true] at hget
            rw [hget]

/-- Witness of C8: `bob`, who has no attribute `icidentifier`, queries the
seeded ledger. -/
theorem queryAllICsAttr_requires_a_witness :
    (seededStub org2Bob).creator.attrs "icidentifier" = Except.ok none ∧
    queryAllICsAttr (seededStub org2Bob) = (Response.error "Assert error", seededStub org2Bob) :=
  ⟨rfl, (queryAllICsAttr_requires_a (seededStub org2Bob) none rfl (by decide)).1⟩

/-! ## Lookup and argument counts -/

/-- Claim C9. For every ledger state (the get reporting no error) and every
argument list `[key]`, `queryIC` returns success with exactly the bytes stored
at `key` as payload, and success with an empty payload when nothing is stored
at `key`; for every argument list whose length is not 1 it returns the error
"Incorrect number of arguments. Expecting 1". -/
theorem queryIC_returns_stored (stub : Stub) (key : Bytes)
    (hget : stub.getFault key = none) :
    (∀ value, stub.ledger.get key = some value →
      queryIC stub [key] = (Response.success value, stub)) ∧
    (stub.ledger.get key = none → queryIC stub [key] = (Response.success [], stub)) ∧
    (∀ args : List Bytes, args.length ≠ 1 →
      queryIC stub args =
        (Response.error "Incorrect number of arguments. Expecting 1", stub)) := by
  refine ⟨fun value h => ?_, fun h => ?_, fun args h => ?_⟩
  · simp [queryIC, GetState, hget, h]
  · simp [queryIC, GetState, hget, h]
  · simp [queryIC, h]

/-- Witness of C9: looking up `IC2` on the seeded ledger. -/
theorem queryIC_returns_stored_witness :
    (seededStub org2Bob).getFault (utf8 "IC2") = none ∧
    queryIC (seededStub org2Bob) [utf8 "IC2"] =
      (Response.success
        (utf8 "\x7b\"identifier\":\"c\",\"type\":\"server\",\"crp\":\"3456\",\"owner\":\"Org2\"\x7d"),
        seededStub org2Bob) :=
  ⟨rfl, (queryIC_returns_stored (seededStub org2Bob) (utf8 "IC2") rfl).1 _ (by decide)⟩

/-- Counterexample to C10: called with no arguments by a caller of `Org2MSP`,
`createIC` fails with "Assert error", not with the argument-count error. -/
theorem createIC_wrong_arity_other_org :
    ([] : List Bytes).length ≠ 5 ∧
    (createIC (freshStub org2Bob) []).1 = Response.error "Assert error" ∧
    (createIC (freshStub org2Bob) []).1 ≠
      Response.error "Incorrect number of arguments. Expecting 5" := by
  decide

/-- Claim C10, amended. For every `createIC` call whose argument list does not
have exactly 5 elements, whatever the caller's organisation, `createIC` fails
and makes no write; the error is "Incorrect number of arguments. Expecting 5"
when the caller belongs to `Org1MSP` and its id is known, and "Assert error"
when the caller belongs to another organisation, the organisation being checked
first. -/
theorem createIC_wrong_arity (stub : Stub) (args : List Bytes) (hlen : args.length ≠ 5) :
    (∃ message, createIC stub args = (Response.error message, stub)) ∧
    (∀ id, GetMSPID stub = Except.ok (utf8 "Org1MSP") → GetID stub = Except.ok id →
      createIC stub args =
        (Response.error "Incorrect number of arguments. Expecting 5", stub)) ∧
    (∀ mspid, GetMSPID stub = Except.ok mspid → mspid ≠ utf8 "Org1MSP" →
      createIC stub args = (Response.error "Assert error", stub)) := by
  refine ⟨?_, fun id hmsp hid => ?_, fun mspid hmsp hne => ?_⟩
  · unfold createIC
    cases GetMSPID stub with
    | error e => exact ⟨e, rfl⟩
    | ok mspid =>
      by_cases hm : mspid = utf8 "Org1MSP"
      · cases GetID stub with
        | error e => exact ⟨e, by simp [hm]⟩
        | ok id =>
          exact ⟨"Incorrect number of arguments. Expecting 5", by simp [hm, hlen]⟩
      · exact ⟨"Assert error", by simp [hm]⟩
  · simp [createIC, hmsp, hid, hlen]
  · simp [createIC, hmsp, hne]

/-- Witness of the amended C10: `alice` of `Org1MSP` calls `createIC` with two
arguments. -/
theorem createIC_wrong_arity_witness :
    [utf8 "IC7", utf8 "x"].length ≠ 5 ∧
    createIC (seededStub org1Alice) [utf8 "IC7", utf8 "x"] =
      (Response.error "Incorrect number of arguments. Expecting 5", seededStub org1Alice) :=
  ⟨by decide, (createIC_wrong_arity (seededStub org1Alice) [utf8 "IC7", utf8 "x"] (by decide)).2.1
    (utf8 "alice") rfl rfl⟩

/-! ## Sorted association lists -/

theorem keyLt_irrefl (a : Bytes) : ¬ keyLt a a :=
  fun h => (List.Lex.isAsymm (r := fun x y : Byte => x < y)).asymm _ _ h h

theorem keyLt_asymm (a b : Bytes) (h1 : keyLt a b) (h2 : keyLt b a) : False :=
  (List.Lex.isAsymm (r := fun x y : Byte => x < y)).asymm _ _ h1 h2

theorem lookupEntry_some_mem (k v : Bytes) (l : List (Bytes × Bytes))
    (h : lookupEntry k l = some v) : (k, v) ∈ l := by
  induction l with
  | nil => simp [lookupEntry] at h
  | cons hd tl ih =>
    simp only [lookupEntry] at h
    split_ifs at h with hk
    · simp only [Option.some.injEq] at h
      rw [hk, ← h]
      exact List.mem_cons_self _ _
    · exact List.mem_cons_of_mem _ (ih h)

theorem mem_lookupEntry_of_sorted (k v : Bytes) (l : List (Bytes × Bytes))
    (hl : l.Pairwise (fun a b => keyLt a.1 b.1)) (h : (k, v) ∈ l) :
    lookupEntry k l = some v := by
  induction l with
  | nil => simp at h
  | cons hd tl ih =>
    rw [List.pairwise_cons] at hl
    simp only [lookupEntry]
    rcases List.mem_cons.1 h with h | h
    · rw [← h]; simp
    · have hlt := hl.1 _ h
      have hne : k ≠ hd.1 := fun e => keyLt_irrefl k (by simpa [e] using hlt)
      simp only [hne, if_false]
      exact ih hl.2 h

theorem Ledger.mem_entries_iff (l : Ledger) (k v : Bytes) :
    (k, v) ∈ l.entries ↔ l.get k = some v :=
  ⟨mem_lookupEntry_of_sorted k v l.entries l.sorted, lookupEntry_some_mem k v l.entries⟩

theorem Ledger.mem_range_iff (l : Ledger) (startKey endKey k v : Bytes) :
    (k, v) ∈ l.range startKey endKey ↔
      l.get k = some v ∧ ¬ keyLt k startKey ∧ (endKey = [] ∨ keyLt k endKey) := by
  simp [Ledger.range, Ledger.mem_entries_iff]

theorem Ledger.range_sorted (l : Ledger) (startKey endKey : Bytes) :
    (l.range startKey endKey).Pairwise (fun a b => keyLt a.1 b.1) :=
  List.Pairwise.filter _ l.sorted

/-- Two key-sorted association lists with the same pairs are equal. -/
theorem sorted_entries_ext (l1 l2 : List (Bytes × Bytes))
    (h1 : l1.Pairwise (fun a b => keyLt a.1 b.1)) (h2 : l2.Pairwise (fun a b => keyLt a.1 b.1))
    (h : ∀ p, p ∈ l1 ↔ p ∈ l2) : l1 = l2 := by
  haveI : IsIrrefl (Bytes × Bytes) (fun a b => keyLt a.1 b.1) := ⟨fun a => keyLt_irrefl a.1⟩
  haveI : IsAntisymm (Bytes × Bytes) (fun a b => keyLt a.1 b.1) :=
    ⟨fun a b hab hba => (keyLt_asymm _ _ hab hba).elim⟩
  exact List.eq_of_perm_of_sorted
    ((List.perm_ext_iff_of_nodup (List.Pairwise.nodup h1) (List.Pairwise.nodup h2)).2 h) h1 h2

/-- A ledger is determined by the value it holds at each key. -/
theorem Ledger.ext_get (l1 l2 : Ledger) (h : ∀ k, l1.get k = l2.get k) : l1 = l2 := by
  have he : l1.entries = l2.entries := by
    refine sorted_entries_ext _ _ l1.sorted l2.sorted (fun p => ?_)
    obtain ⟨k, v⟩ := p
    rw [Ledger.mem_entries_iff, Ledger.mem_entries_iff, h]
  cases l1; cases l2
  simp only [Ledger.mk.injEq]
  exact he

/-! ## The writes of `initLedger` -/

set_option maxRecDepth 100000 in
theorem initLedger_eq_putAll (stub : Stub) :
    initLedger stub = (Response.success [], putAll seedEntries stub) := rfl

theorem putAll_creator (es : List (Bytes × Bytes)) :
    ∀ stub : Stub, (putAll es stub).creator = stub.creator ∧
      (putAll es stub).getFault = stub.getFault ∧ (putAll es stub).putFault = stub.putFault ∧
      (putAll es stub).rangeFault = stub.rangeFault ∧
      (putAll es stub).nextFault = stub.nextFault := by
  induction es with
  | nil => intro stub; exact ⟨rfl, rfl, rfl, rfl, rfl⟩
  | cons kv es ih =>
    intro stub
    have hp : (PutState stub kv.1 kv.2).2.creator = stub.creator ∧
        (PutState stub kv.1 kv.2).2.getFault = stub.getFault ∧
        (PutState stub kv.1 kv.2).2.putFault = stub.putFault ∧
        (PutState stub kv.1 kv.2).2.rangeFault = stub.rangeFault ∧
        (PutState stub kv.1 kv.2).2.nextFault = stub.nextFault := by
      unfold PutState
      cases stub.putFault kv.1 kv.2 <;> exact ⟨rfl, rfl, rfl, rfl, rfl⟩
    obtain ⟨a, b, c, d, e⟩ := ih (PutState stub kv.1 kv.2).2
    exact ⟨a.trans hp.1, b.trans hp.2.1, c.trans hp.2.2.1, d.trans hp.2.2.2.1,
      e.trans hp.2.2.2.2⟩

/-- The value at a key after a series of puts at distinct keys: the value put
there, if the list has a pair with this key and its put reports no error, and
the value held before otherwise. -/
theorem get_putAll (es : List (Bytes × Bytes))
    (hes : es.Pairwise (fun a b => a.1 ≠ b.1)) (k : Bytes) :
    ∀ stub : Stub, (putAll es stub).ledger.get k =
      match lookupEntry k es with
      | some v => if stub.putFault k v = none then some v else stub.ledger.get k
      | none => stub.ledger.get k := by
  induction es with
  | nil => intro stub; rfl
  | cons kv es ih =>
    intro stub
    rw [List.pairwise_cons] at hes
    have hpf : (PutState stub kv.1 kv.2).2.putFault = stub.putFault :=
      (putAll_creator [kv] stub).2.2.1
    have hstep : (putAll (kv :: es) stub).ledger.get k =
        match lookupEntry k es with
        | some v =>
          if stub.putFault k v = none then some v else (PutState stub kv.1 kv.2).2.ledger.get k
        | none => (PutState stub kv.1 kv.2).2.ledger.get k := by
      show (putAll es (PutState stub kv.1 kv.2).2).ledger.get k = _
      rw [ih hes.2, hpf]
    rw [hstep]
    by_cases hk : k = kv.1
    · subst hk
      have hnone : lookupEntry kv.1 es = none := by
        cases hl : lookupEntry kv.1 es with
        | none => rfl
        | some v => exact absurd rfl (hes.1 (kv.1, v) (lookupEntry_some_mem kv.1 v es hl))
      simp only [hnone, lookupEntry, if_true]
      unfold PutState
      cases hf : stub.putFault kv.1 kv.2 with
      | none => simp [Ledger.get_put_same]
      | some e => simp
    · simp only [lookupEntry, hk, if_false]
      rw [PutState_get_other stub kv.1 k kv.2 hk]

theorem seedEntries_sorted : seedEntries.Pairwise (fun a b => keyLt a.1 b.1) := by decide

theorem seedEntries_distinct : seedEntries.Pairwise (fun a b => a.1 ≠ b.1) := by decide

theorem seedEntries_window :
    ∀ p ∈ seedEntries, ¬ keyLt p.1 (utf8 "IC0") ∧ keyLt p.1 (utf8 "IC999") := by decide

theorem lookupEntry_none_not_mem (k : Bytes) (l : List (Bytes × Bytes))
    (h : lookupEntry k l = none) : ∀ p ∈ l, p.1 ≠ k := by
  induction l with
  | nil => intro p hp; simp at hp
  | cons hd tl ih =>
    simp only [lookupEntry] at h
    split_ifs at h with hk
    intro p hp
    rcases List.mem_cons.1 hp with e | e
    · rw [e]; exact fun e' => hk e'.symm
    · exact ih h p e

/-- The scan window after the seven puts, on a ledger that holds no other keys
in the window: exactly the seed pairs. -/
theorem range_putAll_seedEntries (stub : Stub)
    (hother : ∀ p ∈ stub.ledger.range (utf8 "IC0") (utf8 "IC999"), p.1 ∈ seedEntries.map Prod.fst)
    (hput : ∀ k v, stub.putFault k v = none) :
    (putAll seedEntries stub).ledger.range (utf8 "IC0") (utf8 "IC999") = seedEntries := by
  refine sorted_entries_ext _ _ (Ledger.range_sorted _ _ _) seedEntries_sorted (fun p => ?_)
  obtain ⟨k, v⟩ := p
  rw [Ledger.mem_range_iff, get_putAll seedEntries seedEntries_distinct k stub]
  have hmem : (k, v) ∈ seedEntries ↔ lookupEntry k seedEntries = some v :=
    ⟨mem_lookupEntry_of_sorted k v _ seedEntries_sorted, lookupEntry_some_mem k v _⟩
  rw [hmem]
  cases hl : lookupEntry k seedEntries with
  | some v' =>
    have hw := seedEntries_window (k, v') (lookupEntry_some_mem k v' _ hl)
    simp only [hput, if_true]
    exact ⟨fun h => h.1, fun h => ⟨h, hw.1, Or.inr hw.2⟩⟩
  | none =>
    simp only
    refine ⟨fun h => ?_, fun h => by simp at h⟩
    have hin : (k, v) ∈ stub.ledger.range (utf8 "IC0") (utf8 "IC999") :=
      (Ledger.mem_range_iff _ _ _ _ _).2 h
    obtain ⟨q, hq, hqk⟩ := List.mem_map.1 (hother _ hin)
    exact absurd hqk (lookupEntry_none_not_mem k _ hl q hq)

/-! ## Seeding -/

/-- Claim C11. Starting from a ledger with no keys in the scan window (the store
reporting no error), `initLedger` followed by `queryAllICs` returns exactly the
7 entries with keys `IC0`, ..., `IC6` in that order, the record of each being
the encoding of its literal seed value; the element of `IC2` is
`{"Key":"IC2", "Record":{"identifier":"c","type":"server","crp":"3456","owner":"Org2"}}`. -/
theorem initLedger_then_queryAllICs (stub : Stub)
    (hempty : stub.ledger.range (utf8 "IC0") (utf8 "IC999") = [])
    (hput : ∀ k v, stub.putFault k v = none)
    (hrange : stub.rangeFault (utf8 "IC0") (utf8 "IC999") = none)
    (hnext : ∀ i, stub.nextFault i = none) :
    (initLedger stub).1 = Response.success [] ∧
    (queryAllICs (initLedger stub).2).1 = Response.success (arrayText
      [ (utf8 "IC0", jsonMarshal ⟨utf8 "a", utf8 "laptop", utf8 "1234", utf8 "Org1"⟩),
        (utf8 "IC1", jsonMarshal ⟨utf8 "b", utf8 "desktop", utf8 "2345", utf8 "Org1"⟩),
        (utf8 "IC2", jsonMarshal ⟨utf8 "c", utf8 "server", utf8 "3456", utf8 "Org2"⟩),
        (utf8 "IC3", jsonMarshal ⟨utf8 "a", utf8 "phone", utf8 "4567", utf8 "Org2"⟩),
        (utf8 "IC4", jsonMarshal ⟨utf8 "e", utf8 "iot", utf8 "5678", utf8 "Org2"⟩),
        (utf8 "IC5", jsonMarshal ⟨utf8 "f", utf8 "network", utf8 "6789", utf8 "Org1"⟩),
        (utf8 "IC6", jsonMarshal ⟨utf8 "g", utf8 "laptop", utf8 "7890", utf8 "Org1"⟩) ]) ∧
    ((initLedger stub).2.ledger.range (utf8 "IC0") (utf8 "IC999")).length = 7 ∧
    ((initLedger stub).2.ledger.range (utf8 "IC0") (utf8 "IC999")).map Prod.fst =
      [utf8 "IC0", utf8 "IC1", utf8 "IC2", utf8 "IC3", utf8 "IC4", utf8 "IC5", utf8 "IC6"] ∧
    memberText (utf8 "IC2", jsonMarshal ⟨utf8 "c", utf8 "server", utf8 "3456", utf8 "Org2"⟩) =
      (utf8 "\x7b\"Key\":\"IC2\", \"Record\":\x7b\"identifier\":\"c\",\"type\":\"server\",\"crp\":\"3456\",\"owner\":\"Org2\"\x7d\x7d") := by
  have hseed : seedEntries =
      [ (utf8 "IC0", jsonMarshal ⟨utf8 "a", utf8 "laptop", utf8 "1234", utf8 "Org1"⟩),
        (utf8 "IC1", jsonMarshal ⟨utf8 "b", utf8 "desktop", utf8 "2345", utf8 "Org1"⟩),
        (utf8 "IC2", jsonMarshal ⟨utf8 "c", utf8 "server", utf8 "3456", utf8 "Org2"⟩),
        (utf8 "IC3", jsonMarshal ⟨utf8 "a", utf8 "phone", utf8 "4567", utf8 "Org2"⟩),
        (utf8 "IC4", jsonMarshal ⟨utf8 "e", utf8 "iot", utf8 "5678", utf8 "Org2"⟩),
        (utf8 "IC5", jsonMarshal ⟨utf8 "f", utf8 "network", utf8 "6789", utf8 "Org1"⟩),
        (utf8 "IC6", jsonMarshal ⟨utf8 "g", utf8 "laptop", utf8 "7890", utf8 "Org1"⟩) ] := by decide
  have hr : (initLedger stub).2.ledger.range (utf8 "IC0") (utf8 "IC999") = seedEntries := by
    rw [initLedger_eq_putAll]
    exact range_putAll_seedEntries stub (by rw [hempty]; intro p hp; simp at hp) hput
  have hf := putAll_creator seedEntries stub
  have hscan := GetStateByRange_noFault (initLedger stub).2 (utf8 "IC0") (utf8 "IC999")
    (by rw [initLedger_eq_putAll]; show (putAll seedEntries stub).rangeFault _ _ = none
        rw [hf.2.2.2.1]; exact hrange)
    (by rw [initLedger_eq_putAll]; show ∀ i, (putAll seedEntries stub).nextFault i = none
        rw [hf.2.2.2.2]; exact hnext)
  refine ⟨rfl, ?_, ?_, ?_, by decide⟩
  · rw [← hseed, ← hr]
    simp [queryAllICs, hscan, queryAllICsLoop_ok]
  · rw [hr]; rfl
  · rw [hr]; rfl

/-- Witness of C11: seeding the empty ledger. -/
theorem initLedger_then_queryAllICs_witness :
    (freshStub org2Bob).ledger.range (utf8 "IC0") (utf8 "IC999") = [] ∧
    ((initLedger (freshStub org2Bob)).2.ledger.range (utf8 "IC0") (utf8 "IC999")).map Prod.fst =
      [utf8 "IC0", utf8 "IC1", utf8 "IC2", utf8 "IC3", utf8 "IC4", utf8 "IC5", utf8 "IC6"] :=
  ⟨rfl, (initLedger_then_queryAllICs (freshStub org2Bob) rfl (fun _ _ => rfl) rfl
    (fun _ => rfl)).2.2.2.1⟩
theorem Stub.eq_of_fields (a b : Stub) (h1 : a.ledger = b.ledger) (h2 : a.creator = b.creator)
    (h3 : a.getFault = b.getFault) (h4 : a.putFault = b.putFault)
    (h5 : a.rangeFault = b.rangeFault) (h6 : a.nextFault = b.nextFault) : a = b := by
  cases a; cases b
  simp only [Stub.mk.injEq]
  exact ⟨h1, h2, h3, h4, h5, h6⟩

/-- Repeating a series of puts at distinct keys changes nothing. -/
theorem putAll_putAll (es : List (Bytes × Bytes))
    (hes : es.Pairwise (fun a b => a.1 ≠ b.1)) (stub : Stub) :
    putAll es (putAll es stub) = putAll es stub := by
  obtain ⟨h2, h3, h4, h5, h6⟩ := putAll_creator es (putAll es stub)
  refine Stub.eq_of_fields _ _ (Ledger.ext_get _ _ (fun k => ?_)) h2 h3 h4 h5 h6
  rw [get_putAll es hes k (putAll es stub), (putAll_creator es stub).2.2.1]
  cases hl : lookupEntry k es with
  | none => rfl
  | some v =>
    simp only
    split_ifs with hf
    · rw [get_putAll es hes k stub, hl]
      simp only [hf, if_true]
    · rfl

/-- Claim C12. `initLedger` is idempotent on the ledger state: for every state,
running it twice yields exactly the state of running it once, so `queryAllICs`
returns the same after either; the scan then has 7 entries when the store
reports no error and the state held no other keys in the scan window. -/
theorem initLedger_idempotent (stub : Stub) :
    (initLedger (initLedger stub).2).2 = (initLedger stub).2 ∧
    queryAllICs (initLedger (initLedger stub).2).2 = queryAllICs (initLedger stub).2 ∧
    ((∀ k v, stub.putFault k v = none) →
      (∀ p ∈ stub.ledger.range (utf8 "IC0") (utf8 "IC999"),
        p.1 ∈ [utf8 "IC0", utf8 "IC1", utf8 "IC2", utf8 "IC3", utf8 "IC4", utf8 "IC5", utf8 "IC6"]) →
      ((initLedger stub).2.ledger.range (utf8 "IC0") (utf8 "IC999")).length = 7 ∧
      ((initLedger (initLedger stub).2).2.ledger.range (utf8 "IC0") (utf8 "IC999")).length = 7) := by
  have h : (initLedger (initLedger stub).2).2 = (initLedger stub).2 := by
    simp only [initLedger_eq_putAll]
    exact putAll_putAll seedEntries seedEntries_distinct stub
  refine ⟨h, by rw [h], fun hput hother => ?_⟩
  have hr : (initLedger stub).2.ledger.range (utf8 "IC0") (utf8 "IC999") = seedEntries := by
    rw [initLedger_eq_putAll]
    exact range_putAll_seedEntries stub hother hput
  rw [h, hr]
  exact ⟨rfl, rfl⟩

/-- Witness of C12: seeding a ledger on which `IC0` was created before. -/
theorem initLedger_idempotent_witness :
    (initLedger (initLedger
        (createIC (freshStub org1Alice) [utf8 "IC0", utf8 "x", utf8 "server", utf8 "42", utf8 "carol"]).2).2).2.ledger.entries
      = (initLedger
        (createIC (freshStub org1Alice) [utf8 "IC0", utf8 "x", utf8 "server", utf8 "42", utf8 "carol"]).2).2.ledger.entries ∧
    ((initLedger (initLedger
        (createIC (freshStub org1Alice) [utf8 "IC0", utf8 "x", utf8 "server", utf8 "42", utf8 "carol"]).2).2).2.ledger.range
      (utf8 "IC0") (utf8 "IC999")).length = 7 :=
  ⟨congrArg (fun s => s.ledger.entries) (initLedger_idempotent
      (createIC (freshStub org1Alice) [utf8 "IC0", utf8 "x", utf8 "server", utf8 "42", utf8 "carol"]).2).1,
    ((initLedger_idempotent
      (createIC (freshStub org1Alice) [utf8 "IC0", utf8 "x", utf8 "server", utf8 "42", utf8 "carol"]).2).2.2
      (fun _ _ => rfl) (by decide)).2⟩

/-! ## The scan window -/

set_option maxRecDepth 100000 in
/-- Claim C13. For every ledger state (the scan reporting no error) the result of
`queryAllICs` is the array of the pairs of the window, and a stored key `k` has
an element in it if and only if `"IC0" ≤ k < "IC999"` in the lexicographic order
of the keys, the lower bound included and the upper bound excluded, however `k`
was written; the elements come in ascending key order.  Every key
`"IC" + decimal(n)` with `n < 999` lies in the window, and `queryAllICsAttr`
filters the pairs of the same window. -/
theorem scan_window (stub : Stub)
    (hrange : stub.rangeFault (utf8 "IC0") (utf8 "IC999") = none)
    (hnext : ∀ i, stub.nextFault i = none) :
    (queryAllICs stub).1 = Response.success (arrayText (stub.ledger.range (utf8 "IC0") (utf8 "IC999"))) ∧
    (∀ k v, (k, v) ∈ stub.ledger.range (utf8 "IC0") (utf8 "IC999") ↔
      stub.ledger.get k = some v ∧ ¬ keyLt k (utf8 "IC0") ∧ keyLt k (utf8 "IC999")) ∧
    (stub.ledger.range (utf8 "IC0") (utf8 "IC999")).Pairwise (fun a b => keyLt a.1 b.1) ∧
    (∀ n, n < 999 → ¬ keyLt (utf8 "IC" ++ utf8 (toString n)) (utf8 "IC0") ∧ keyLt (utf8 "IC" ++ utf8 (toString n)) (utf8 "IC999")) ∧
    (stub.creator.attrs "icidentifier" = Except.ok (some (utf8 "a")) →
      (queryAllICsAttr stub).1 = Response.success (arrayText
        ((stub.ledger.range (utf8 "IC0") (utf8 "IC999")).filter
          (fun kv => stringsContains (jsonUnmarshal kv.2 IC.zero).Identifier (utf8 "a"))))) := by
  have hs := GetStateByRange_noFault stub (utf8 "IC0") (utf8 "IC999") hrange hnext
  refine ⟨?_, fun k v => ?_, Ledger.range_sorted _ _ _, by decide, fun hattr => ?_⟩
  · simp [queryAllICs, hs, queryAllICsLoop_ok]
  · rw [Ledger.mem_range_iff]
    simp [show utf8 "IC999" ≠ [] by decide]
  · obtain ⟨h1, h2⟩ := AssertAttributeValue_a stub hattr
    simp [queryAllICsAttr, h1, h2, hs, queryAllICsAttrLoop_filter, queryAllICsLoop_ok]

/-- Witness of C13: on the seeded ledger `IC3` is stored inside the window. -/
theorem scan_window_witness :
    (seededStub org2Bob).rangeFault (utf8 "IC0") (utf8 "IC999") = none ∧
    ((utf8 "IC3", utf8 "\x7b\"identifier\":\"a\",\"type\":\"phone\",\"crp\":\"4567\",\"owner\":\"Org2\"\x7d") ∈
        (seededStub org2Bob).ledger.range (utf8 "IC0") (utf8 "IC999") ↔
      (seededStub org2Bob).ledger.get (utf8 "IC3") =
          some (utf8 "\x7b\"identifier\":\"a\",\"type\":\"phone\",\"crp\":\"4567\",\"owner\":\"Org2\"\x7d") ∧
        ¬ keyLt (utf8 "IC3") (utf8 "IC0") ∧ keyLt (utf8 "IC3") (utf8 "IC999")) :=
  ⟨rfl, (scan_window (seededStub org2Bob) rfl (fun _ => rfl)).2.1 _ _⟩

/-! ## The record encoding -/

set_option maxRecDepth 100000 in
/-- Counterexample to C14 as stated: the record whose identifier is the single
byte `0xFF`, which `createIC` writes when `args[1]` is that byte.  Its encoding
holds the escape of U+FFFD; decoding gives the identifier U+FFFD, not the
record, and encoding the decoded record writes U+FFFD raw, not the bytes that
were decoded. -/
theorem jsonMarshal_round_trip_not_utf8 :
    jsonMarshal { Identifier := [0xFF], Type_ := [], CRP := [], Owner := [] } =
      utf8 "\x7b\"identifier\":\"\\ufffd\",\"type\":\"\",\"crp\":\"\",\"owner\":\"\"\x7d" ∧
    jsonUnmarshal (jsonMarshal { Identifier := [0xFF], Type_ := [], CRP := [], Owner := [] })
        IC.zero =
      { Identifier := [0xEF, 0xBF, 0xBD], Type_ := [], CRP := [], Owner := [] } ∧
    jsonUnmarshal (jsonMarshal { Identifier := [0xFF], Type_ := [], CRP := [], Owner := [] })
        IC.zero ≠
      { Identifier := [0xFF], Type_ := [], CRP := [], Owner := [] } ∧
    jsonMarshal (jsonUnmarshal
        (jsonMarshal { Identifier := [0xFF], Type_ := [], CRP := [], Owner := [] }) IC.zero) ≠
      jsonMarshal { Identifier := [0xFF], Type_ := [], CRP := [], Owner := [] } := by
  decide

/-- Claim C14, amended. For every record `r` the encoding `json.Marshal` writes
is the object with the four fields in the fixed order `identifier`, `type`,
`crp`, `owner`, and decoding it gives `r` with every field coerced to valid
UTF-8.  For every record whose four fields are valid UTF-8, decoding the
encoding gives `r` back, and encoding the decoded record gives the same
bytes. -/
theorem jsonMarshal_round_trip (r : IC) :
    jsonMarshal r =
      utf8 "\x7b\"identifier\":" ++ encodeString r.Identifier ++
        utf8 ",\"type\":" ++ encodeString r.Type_ ++
        utf8 ",\"crp\":" ++ encodeString r.CRP ++
        utf8 ",\"owner\":" ++ encodeString r.Owner ++ utf8 "\x7d" ∧
    parseJSON (jsonMarshal r) = some (JValue.object
      [(utf8 "identifier", JValue.str (toValidUTF8 r.Identifier)),
       (utf8 "type", JValue.str (toValidUTF8 r.Type_)),
       (utf8 "crp", JValue.str (toValidUTF8 r.CRP)),
       (utf8 "owner", JValue.str (toValidUTF8 r.Owner))]) ∧
    jsonUnmarshal (jsonMarshal r) IC.zero =
      { Identifier := toValidUTF8 r.Identifier, Type_ := toValidUTF8 r.Type_,
        CRP := toValidUTF8 r.CRP, Owner := toValidUTF8 r.Owner } ∧
    (validUTF8 r.Identifier = true → validUTF8 r.Type_ = true → validUTF8 r.CRP = true →
      validUTF8 r.Owner = true →
      jsonUnmarshal (jsonMarshal r) IC.zero = r ∧
      jsonMarshal (jsonUnmarshal (jsonMarshal r) IC.zero) = jsonMarshal r) := by
  refine ⟨?_, parseJSON_jsonMarshal r, jsonUnmarshal_jsonMarshal r IC.zero,
    fun h1 h2 h3 h4 => ?_⟩
  · simp only [jsonMarshal, List.append_assoc]
  · have h := jsonUnmarshal_jsonMarshal_valid r IC.zero h1 h2 h3 h4
    exact ⟨h, by rw [h]⟩

set_option maxRecDepth 100000 in
/-- Witness of the amended C14: the seed record at `IC2`. -/
theorem jsonMarshal_round_trip_witness :
    validUTF8 (utf8 "c") = true ∧ validUTF8 (utf8 "server") = true ∧
    validUTF8 (utf8 "3456") = true ∧ validUTF8 (utf8 "Org2") = true ∧
    jsonUnmarshal (jsonMarshal
        { Identifier := utf8 "c", Type_ := utf8 "server", CRP := utf8 "3456",
          Owner := utf8 "Org2" }) IC.zero =
      { Identifier := utf8 "c", Type_ := utf8 "server", CRP := utf8 "3456",
        Owner := utf8 "Org2" } :=
  ⟨by decide, by decide, by decide, by decide,
    ((jsonMarshal_round_trip
      { Identifier := utf8 "c", Type_ := utf8 "server", CRP := utf8 "3456",
        Owner := utf8 "Org2" }).2.2.2 (by decide) (by decide) (by decide) (by decide)).1⟩

/-! ## Dispatch -/

set_option maxRecDepth 100000 in
/-- Claim C15. For every function name other than `queryIC`, `initLedger`,
`createIC`, `queryAllICs`, `queryAllICsAttr` and `changeICOwner`, matched
exactly, `Invoke` returns the error "Invalid Smart Contract function name." and
leaves the ledger as it is; for each of the six names its result and the state
it leaves are those of the handler on the same arguments. -/
theorem Invoke_dispatch (stub : Stub) (args : List Bytes) :
    (∀ function : Bytes,
      function ∉ [utf8 "queryIC", utf8 "initLedger", utf8 "createIC", utf8 "queryAllICs", utf8 "queryAllICsAttr",
        (utf8 "changeICOwner")] →
      Invoke stub function args =
        (Response.error "Invalid Smart Contract function name.", stub)) ∧
    Invoke stub (utf8 "queryIC") args = queryIC stub args ∧
    Invoke stub (utf8 "initLedger") args = initLedger stub ∧
    Invoke stub (utf8 "createIC") args = createIC stub args ∧
    Invoke stub (utf8 "queryAllICs") args = queryAllICs stub ∧
    Invoke stub (utf8 "queryAllICsAttr") args = queryAllICsAttr stub ∧
    Invoke stub (utf8 "changeICOwner") args = changeICOwner stub args := by
  refine ⟨fun function h => ?_, rfl, rfl, rfl, rfl, rfl, rfl⟩
  simp only [List.mem_cons, List.mem_singleton, List.not_mem_nil, or_false, not_or] at h
  obtain ⟨h1, h2, h3, h4, h5, h6⟩ := h
  simp only [Invoke, h1, h2, h3, h4, h5, h6, if_false]

/-- Witness of C15: the name `QueryIC`, which differs from `queryIC` in case, is
rejected. -/
theorem Invoke_dispatch_witness :
    (utf8 "QueryIC") ∉ [utf8 "queryIC", utf8 "initLedger", utf8 "createIC", utf8 "queryAllICs", utf8 "queryAllICsAttr",
      (utf8 "changeICOwner")] ∧
    Invoke (seededStub org1Alice) (utf8 "QueryIC") [utf8 "IC0"] =
      (Response.error "Invalid Smart Contract function name.", seededStub org1Alice) :=
  ⟨by decide, (Invoke_dispatch (seededStub org1Alice) [utf8 "IC0"]).1 (utf8 "QueryIC") (by decide)⟩

/-! ## Ownership transfer: what is written -/

set_option maxRecDepth 100000 in
/-- Counterexample to C16 as stated: on the seeded ledger `alice` creates the
record at `IC7` and transfers it to the new owner given as the single byte
`0xC3`, the first byte of a two-byte encoding with nothing after it.  The call
succeeds; identifier, type and crp are kept, but the owner of the record stored
afterwards is U+FFFD, not `newOwner`. -/
theorem changeICOwner_owner_coerced :
    (changeICOwner (createIC (seededStub org1Alice)
      [utf8 "IC7", utf8 "x", utf8 "laptop", utf8 "42", utf8 "carol"]).2
        [utf8 "IC7", [0xC3]]).1 = Response.success [] ∧
    jsonUnmarshal (((changeICOwner (createIC (seededStub org1Alice)
      [utf8 "IC7", utf8 "x", utf8 "laptop", utf8 "42", utf8 "carol"]).2
        [utf8 "IC7", [0xC3]]).2.ledger.get (utf8 "IC7")).getD []) IC.zero =
      { Identifier := utf8 "x", Type_ := utf8 "laptop", CRP := utf8 "42",
        Owner := [0xEF, 0xBF, 0xBD] } ∧
    jsonUnmarshal (((changeICOwner (createIC (seededStub org1Alice)
      [utf8 "IC7", utf8 "x", utf8 "laptop", utf8 "42", utf8 "carol"]).2
        [utf8 "IC7", [0xC3]]).2.ledger.get (utf8 "IC7")).getD []) IC.zero ≠
      { Identifier := (jsonUnmarshal (((createIC (seededStub org1Alice)
          [utf8 "IC7", utf8 "x", utf8 "laptop", utf8 "42", utf8 "carol"]).2.ledger.get
            (utf8 "IC7")).getD []) IC.zero).Identifier,
        Type_ := (jsonUnmarshal (((createIC (seededStub org1Alice)
          [utf8 "IC7", utf8 "x", utf8 "laptop", utf8 "42", utf8 "carol"]).2.ledger.get
            (utf8 "IC7")).getD []) IC.zero).Type_,
        CRP := (jsonUnmarshal (((createIC (seededStub org1Alice)
          [utf8 "IC7", utf8 "x", utf8 "laptop", utf8 "42", utf8 "carol"]).2.ledger.get
            (utf8 "IC7")).getD []) IC.zero).CRP,
        Owner := [0xC3] } := by
  decide

/-- Claim C16, amended. For every successful `changeICOwner(key, newOwner)` (on
a store whose get and put at `key` report no error), the record stored at `key`
afterwards has the identifier, type and crp of the record decoded from the
value stored before the call, and its owner is `newOwner` coerced to valid
UTF-8 (every byte that is not part of a valid encoding replaced by U+FFFD),
hence `newOwner` itself when that is valid UTF-8.  It is written to the same
key: the values at all other keys are unchanged. -/
theorem changeICOwner_rewrites_owner_only (stub : Stub) (key newOwner payload : Bytes)
    (hget : stub.getFault key = none)
    (hput : ∀ v, stub.putFault key v = none)
    (hsucc : (changeICOwner stub [key, newOwner]).1 = Response.success payload) :
    jsonUnmarshal (((changeICOwner stub [key, newOwner]).2.ledger.get key).getD []) IC.zero =
      { Identifier := (jsonUnmarshal ((stub.ledger.get key).getD []) IC.zero).Identifier,
        Type_ := (jsonUnmarshal ((stub.ledger.get key).getD []) IC.zero).Type_,
        CRP := (jsonUnmarshal ((stub.ledger.get key).getD []) IC.zero).CRP,
        Owner := toValidUTF8 newOwner } ∧
    (validUTF8 newOwner = true →
      jsonUnmarshal (((changeICOwner stub [key, newOwner]).2.ledger.get key).getD [])
          IC.zero =
        { Identifier := (jsonUnmarshal ((stub.ledger.get key).getD []) IC.zero).Identifier,
          Type_ := (jsonUnmarshal ((stub.ledger.get key).getD []) IC.zero).Type_,
          CRP := (jsonUnmarshal ((stub.ledger.get key).getD []) IC.zero).CRP,
          Owner := newOwner }) ∧
    (∀ other, other ≠ key →
      (changeICOwner stub [key, newOwner]).2.ledger.get other = stub.ledger.get other) := by
  have hstate : (GetState stub key).1 = (stub.ledger.get key).getD [] := by
    simp [GetState, hget]
  obtain ⟨v1, v2, v3, _⟩ := jsonUnmarshal_zero_valid ((stub.ledger.get key).getD [])
  cases hid : GetID stub with
  | error e => simp [changeICOwner, hid] at hsucc
  | ok id =>
    by_cases hown : (jsonUnmarshal ((stub.ledger.get key).getD []) IC.zero).Owner = id
    · have hout : changeICOwner stub [key, newOwner] =
          (Response.success [], (PutState stub key (jsonMarshal
            { jsonUnmarshal ((stub.ledger.get key).getD []) IC.zero with
              Owner := newOwner })).2) := by
        simp [changeICOwner, hid, hstate, hown]
      have hafter : jsonUnmarshal (((PutState stub key (jsonMarshal
            { jsonUnmarshal ((stub.ledger.get key).getD []) IC.zero with
              Owner := newOwner })).2.ledger.get key).getD []) IC.zero =
          { Identifier := (jsonUnmarshal ((stub.ledger.get key).getD []) IC.zero).Identifier,
            Type_ := (jsonUnmarshal ((stub.ledger.get key).getD []) IC.zero).Type_,
            CRP := (jsonUnmarshal ((stub.ledger.get key).getD []) IC.zero).CRP,
            Owner := toValidUTF8 newOwner } := by
        simp only [PutState_get_same stub key _ (hput _), Option.getD_some,
          jsonUnmarshal_jsonMarshal, toValidUTF8_of_valid _ v1, toValidUTF8_of_valid _ v2,
          toValidUTF8_of_valid _ v3]
      rw [hout]
      refine ⟨hafter, fun hv => ?_, fun other hne => PutState_get_other stub key other _ hne⟩
      rw [hafter, toValidUTF8_of_valid _ hv]
    · simp [changeICOwner, hid, hstate, hown] at hsucc

set_option maxRecDepth 100000 in
/-- Witness of the amended C16: `alice` transfers the record she created at
`IC7` on the seeded ledger to `bob`. -/
theorem changeICOwner_rewrites_owner_only_witness :
    (changeICOwner (createIC (seededStub org1Alice)
      [utf8 "IC7", utf8 "x", utf8 "laptop", utf8 "42", utf8 "carol"]).2
      [utf8 "IC7", utf8 "bob"]).1 = Response.success [] ∧
    validUTF8 (utf8 "bob") = true ∧
    jsonUnmarshal (((changeICOwner
        (createIC (seededStub org1Alice)
          [utf8 "IC7", utf8 "x", utf8 "laptop", utf8 "42", utf8 "carol"]).2
        [utf8 "IC7", utf8 "bob"]).2.ledger.get (utf8 "IC7")).getD []) IC.zero =
      { Identifier := (jsonUnmarshal (((createIC (seededStub org1Alice)
          [utf8 "IC7", utf8 "x", utf8 "laptop", utf8 "42", utf8 "carol"]).2.ledger.get
            (utf8 "IC7")).getD []) IC.zero).Identifier,
        Type_ := (jsonUnmarshal (((createIC (seededStub org1Alice)
          [utf8 "IC7", utf8 "x", utf8 "laptop", utf8 "42", utf8 "carol"]).2.ledger.get
            (utf8 "IC7")).getD []) IC.zero).Type_,
        CRP := (jsonUnmarshal (((createIC (seededStub org1Alice)
          [utf8 "IC7", utf8 "x", utf8 "laptop", utf8 "42", utf8 "carol"]).2.ledger.get
            (utf8 "IC7")).getD []) IC.zero).CRP,
        Owner := utf8 "bob" } :=
  ⟨by decide, by decide, (changeICOwner_rewrites_owner_only
    (createIC (seededStub org1Alice)
      [utf8 "IC7", utf8 "x", utf8 "laptop", utf8 "42", utf8 "carol"]).2
    (utf8 "IC7") (utf8 "bob") [] rfl (fun _ => rfl) (by decide)).2.1 (by decide)⟩

set_option maxRecDepth 100000 in
/-- Counterexample to C17 as stated: a caller whose id is the empty string
calls `changeICOwner` on the absent key `IC9` of the empty ledger with the new
owner given as the single byte `0xFF`, which is not valid UTF-8.  The call
succeeds and creates a record with empty identifier, type and crp, but its
owner is U+FFFD, not `newOwner`. -/
theorem changeICOwner_absent_key_owner_coerced :
    GetID (freshStub org1Nameless) = Except.ok [] ∧
    (freshStub org1Nameless).ledger.get (utf8 "IC9") = none ∧
    (changeICOwner (freshStub org1Nameless) [utf8 "IC9", [0xFF]]).1 = Response.success [] ∧
    jsonUnmarshal (((changeICOwner (freshStub org1Nameless)
        [utf8 "IC9", [0xFF]]).2.ledger.get (utf8 "IC9")).getD []) IC.zero =
      { Identifier := [], Type_ := [], CRP := [], Owner := [0xEF, 0xBF, 0xBD] } ∧
    jsonUnmarshal (((changeICOwner (freshStub org1Nameless)
        [utf8 "IC9", [0xFF]]).2.ledger.get (utf8 "IC9")).getD []) IC.zero ≠
      { Identifier := [], Type_ := [], CRP := [], Owner := [0xFF] } :=
  ⟨rfl, by decide, by decide, by decide, by decide⟩

/-- Claim C17, amended. For every ledger state in which `key` is absent and
every argument list `[key, newOwner]` (the put at `key` reporting no error): a
caller whose id is not empty gets the error "Ownership transfer not permitted
by the sender..." and nothing is written, the key staying absent; a caller
whose id is the empty string succeeds, and the call creates at `key` the record
with empty identifier, type and crp whose owner is `newOwner` coerced to valid
UTF-8 (every byte that is not part of a valid encoding replaced by U+FFFD),
hence `newOwner` itself when that is valid UTF-8. -/
theorem changeICOwner_absent_key (stub : Stub) (id key newOwner : Bytes)
    (hid : GetID stub = Except.ok id)
    (habsent : stub.ledger.get key = none)
    (hput : ∀ v, stub.putFault key v = none) :
    (id ≠ [] →
      changeICOwner stub [key, newOwner] =
          (Response.error "Ownership transfer not permitted by the sender...", stub) ∧
        (changeICOwner stub [key, newOwner]).2.ledger.get key = none) ∧
    (id = [] →
      (changeICOwner stub [key, newOwner]).1 = Response.success [] ∧
      ∃ value, (changeICOwner stub [key, newOwner]).2.ledger.get key = some value ∧
        jsonUnmarshal value IC.zero =
          { Identifier := [], Type_ := [], CRP := [], Owner := toValidUTF8 newOwner } ∧
        (validUTF8 newOwner = true →
          jsonUnmarshal value IC.zero =
            { Identifier := [], Type_ := [], CRP := [], Owner := newOwner })) := by
  have hstate : (GetState stub key).1 = [] := by
    unfold GetState
    cases stub.getFault key with
    | some e => rfl
    | none => simp [habsent]
  have hzero : jsonUnmarshal [] { Identifier := [], Type_ := [], CRP := [], Owner := [] } =
      { Identifier := [], Type_ := [], CRP := [], Owner := [] } := by decide
  have hnil : toValidUTF8 [] = [] := rfl
  refine ⟨fun hne => ?_, fun he => ?_⟩
  · have hout : changeICOwner stub [key, newOwner] =
        (Response.error "Ownership transfer not permitted by the sender...", stub) := by
      have hne' : ¬ [] = id := fun e => hne e.symm
      simp [changeICOwner, hid, hstate, hzero, IC.zero, hne']
    rw [hout]
    exact ⟨rfl, habsent⟩
  · subst he
    have hout : changeICOwner stub [key, newOwner] =
        (Response.success [], (PutState stub key (jsonMarshal
          { Identifier := [], Type_ := [], CRP := [], Owner := newOwner })).2) := by
      simp [changeICOwner, hid, hstate, hzero, IC.zero]
    have hdec : jsonUnmarshal (jsonMarshal
          { Identifier := [], Type_ := [], CRP := [], Owner := newOwner }) IC.zero =
        { Identifier := [], Type_ := [], CRP := [], Owner := toValidUTF8 newOwner } := by
      rw [jsonUnmarshal_jsonMarshal]
      simp only [hnil]
    rw [hout]
    refine ⟨rfl, _, PutState_get_same stub key _ (hput _), hdec, fun hv => ?_⟩
    rw [hdec, toValidUTF8_of_valid _ hv]

set_option maxRecDepth 100000 in
/-- Witness of the amended C17: `alice` tries to transfer the absent key `IC9`
of the seeded ledger and is refused; a caller whose id is empty transfers the
absent key `IC9` of the empty ledger to `bob` and creates a record. -/
theorem changeICOwner_absent_key_witness :
    GetID (seededStub org1Alice) = Except.ok (utf8 "alice") ∧
    (seededStub org1Alice).ledger.get (utf8 "IC9") = none ∧
    changeICOwner (seededStub org1Alice) [utf8 "IC9", utf8 "bob"] =
      (Response.error "Ownership transfer not permitted by the sender...",
        seededStub org1Alice) ∧
    GetID (freshStub org1Nameless) = Except.ok [] ∧
    (freshStub org1Nameless).ledger.get (utf8 "IC9") = none ∧
    (∃ value,
      (changeICOwner (freshStub org1Nameless) [utf8 "IC9", utf8 "bob"]).2.ledger.get
        (utf8 "IC9") = some value ∧
      jsonUnmarshal value IC.zero =
        { Identifier := [], Type_ := [], CRP := [], Owner := utf8 "bob" }) :=
  ⟨rfl, by decide, ((changeICOwner_absent_key (seededStub org1Alice) (utf8 "alice")
    (utf8 "IC9") (utf8 "bob") rfl (by decide) (fun _ => rfl)).1 (by decide)).1,
    rfl, by decide, (((changeICOwner_absent_key (freshStub org1Nameless) []
    (utf8 "IC9") (utf8 "bob") rfl (by decide) (fun _ => rfl)).2 rfl).2).imp
      (fun _ h => ⟨h.1, h.2.2 (by decide)⟩)⟩

/-! ## Tolerant decoding, atomicity and the two list operations -/

theorem stringsContains_empty_a : stringsContains [] (utf8 "a") = false := by decide

set_option maxRecDepth 100000 in
/-- Claim C18. Decode failures never abort a read path: for every ledger state,
whatever bytes it holds in the scan window, and every caller whose attribute
`icidentifier` is `a`, `queryAllICsAttr` returns success when the scan reports
no error.  A stored value that is not well-formed JSON decodes to the record
with all fields empty and is left out of the output; the other entries are
reported as usual. -/
theorem queryAllICsAttr_tolerates_corrupt (stub : Stub)
    (hattr : stub.creator.attrs "icidentifier" = Except.ok (some (utf8 "a")))
    (hrange : stub.rangeFault (utf8 "IC0") (utf8 "IC999") = none)
    (hnext : ∀ i, stub.nextFault i = none) :
    (∃ payload, queryAllICsAttr stub = (Response.success payload, stub)) ∧
    (∀ value, parseJSON value = none →
      jsonUnmarshal value IC.zero = IC.zero ∧
      stringsContains (jsonUnmarshal value IC.zero).Identifier (utf8 "a") = false) ∧
    queryAllICsAttr stub =
      (Response.success (arrayText ((stub.ledger.range (utf8 "IC0") (utf8 "IC999")).filter
        (fun kv => (parseJSON kv.2).isSome &&
          stringsContains (jsonUnmarshal kv.2 IC.zero).Identifier (utf8 "a")))), stub) := by
  obtain ⟨h1, h2⟩ := AssertAttributeValue_a stub hattr
  have hs := GetStateByRange_noFault stub (utf8 "IC0") (utf8 "IC999") hrange hnext
  have hout : queryAllICsAttr stub =
      (Response.success (arrayText ((stub.ledger.range (utf8 "IC0") (utf8 "IC999")).filter
        (fun kv => stringsContains (jsonUnmarshal kv.2 IC.zero).Identifier (utf8 "a")))), stub) := by
    simp [queryAllICsAttr, h1, h2, hs, queryAllICsAttrLoop_filter, queryAllICsLoop_ok]
  have hbad : ∀ value, parseJSON value = none →
      jsonUnmarshal value IC.zero = IC.zero ∧
      stringsContains (jsonUnmarshal value IC.zero).Identifier (utf8 "a") = false := by
    intro value hv
    have hz : jsonUnmarshal value IC.zero = IC.zero := by simp [jsonUnmarshal, hv]
    rw [hz]
    exact ⟨rfl, stringsContains_empty_a⟩
  have hpred : (fun kv : Bytes × Bytes =>
        stringsContains (jsonUnmarshal kv.2 IC.zero).Identifier (utf8 "a")) =
      (fun kv => (parseJSON kv.2).isSome &&
        stringsContains (jsonUnmarshal kv.2 IC.zero).Identifier (utf8 "a")) := by
    funext kv
    cases hp : parseJSON kv.2 with
    | none => simp [(hbad kv.2 hp).2]
    | some j => simp
  refine ⟨⟨_, hout⟩, hbad, ?_⟩
  rw [hout, hpred]

set_option maxRecDepth 100000 in
/-- Witness of C18: on the seeded ledger with the values at `IC0` and `IC1`
corrupted, the entry of `IC3` is still reported and the corrupt ones are left
out. -/
theorem queryAllICsAttr_tolerates_corrupt_witness :
    (corruptStub org1Alice).creator.attrs "icidentifier" = Except.ok (some (utf8 "a")) ∧
    (corruptStub org1Alice).ledger.get (utf8 "IC1") = some (utf8 "a a a") ∧
    parseJSON (utf8 "a a a") = none ∧
    (queryAllICsAttr (corruptStub org1Alice)).1 = Response.success (arrayText
      [(utf8 "IC3", utf8 "\x7b\"identifier\":\"a\",\"type\":\"phone\",\"crp\":\"4567\",\"owner\":\"Org2\"\x7d")]) :=
  ⟨rfl, by decide, rfl, by
    have h := (queryAllICsAttr_tolerates_corrupt (corruptStub org1Alice) rfl rfl
      (fun _ => rfl)).2.2
    rw [h]
    decide⟩

theorem queryIC_snd (stub : Stub) (args : List Bytes) : (queryIC stub args).2 = stub := by
  unfold queryIC
  split_ifs <;> rfl

theorem queryAllICs_snd (stub : Stub) : (queryAllICs stub).2 = stub := by
  unfold queryAllICs
  split <;> rfl

theorem queryAllICsAttr_snd (stub : Stub) : (queryAllICsAttr stub).2 = stub := by
  unfold queryAllICsAttr
  repeat' split
  all_goals rfl

theorem createIC_error_snd (stub : Stub) (args : List Bytes) (message : String)
    (h : (createIC stub args).1 = Response.error message) : (createIC stub args).2 = stub := by
  unfold createIC at h ⊢
  repeat' split
  all_goals first | rfl | simp_all

theorem changeICOwner_error_snd (stub : Stub) (args : List Bytes) (message : String)
    (h : (changeICOwner stub args).1 = Response.error message) :
    (changeICOwner stub args).2 = stub := by
  unfold changeICOwner at h ⊢
  cases hid : GetID stub with
  | error e => rfl
  | ok id =>
    simp only [hid] at h ⊢
    split_ifs at h ⊢ with h1 h2
    all_goals rfl

theorem createIC_get_other (stub : Stub) (args : List Bytes) (k : Bytes)
    (h : k ≠ args.getD 0 []) : (createIC stub args).2.ledger.get k = stub.ledger.get k := by
  unfold createIC
  repeat' split
  all_goals first | rfl | exact PutState_get_other stub _ k _ h

theorem changeICOwner_get_other (stub : Stub) (args : List Bytes) (k : Bytes)
    (h : k ≠ args.getD 0 []) :
    (changeICOwner stub args).2.ledger.get k = stub.ledger.get k := by
  unfold changeICOwner
  cases hid : GetID stub with
  | error e => rfl
  | ok id =>
    simp only
    split_ifs with h1 h2
    · rfl
    · rfl
    · exact PutState_get_other stub _ k _ h

/-- Claim C19. Atomicity and read-only frame: for every function name, argument
list, caller and ledger state, if `Invoke` returns an error result then the
state after the call is the state before it; `queryIC`, `queryAllICs` and
`queryAllICsAttr` leave the state unchanged on every outcome; and `createIC`
and `changeICOwner` change at most the value at `args[0]`. -/
theorem Invoke_atomic (stub : Stub) (function : Bytes) (args : List Bytes) :
    (∀ message, (Invoke stub function args).1 = Response.error message →
      (Invoke stub function args).2 = stub) ∧
    (queryIC stub args).2 = stub ∧
    (queryAllICs stub).2 = stub ∧
    (queryAllICsAttr stub).2 = stub ∧
    (∀ k, k ≠ args.getD 0 [] → (createIC stub args).2.ledger.get k = stub.ledger.get k) ∧
    (∀ k, k ≠ args.getD 0 [] →
      (changeICOwner stub args).2.ledger.get k = stub.ledger.get k) := by
  refine ⟨fun message h => ?_, queryIC_snd stub args, queryAllICs_snd stub,
    queryAllICsAttr_snd stub, fun k hk => createIC_get_other stub args k hk,
    fun k hk => changeICOwner_get_other stub args k hk⟩
  unfold Invoke at h ⊢
  split_ifs at h ⊢
  · exact queryIC_snd stub args
  · simp [initLedger] at h
  · exact createIC_error_snd stub args message h
  · exact queryAllICs_snd stub
  · exact queryAllICsAttr_snd stub
  · exact changeICOwner_error_snd stub args message h
  · rfl

/-- Witness of C19: `bob`, who does not own `IC0`, tries to transfer it. -/
theorem Invoke_atomic_witness :
    (Invoke (seededStub org2Bob) (utf8 "changeICOwner") [utf8 "IC0", utf8 "bob"]).1 =
      Response.error "Ownership transfer not permitted by the sender..." ∧
    (Invoke (seededStub org2Bob) (utf8 "changeICOwner") [utf8 "IC0", utf8 "bob"]).2 = seededStub org2Bob :=
  ⟨by decide, (Invoke_atomic (seededStub org2Bob) (utf8 "changeICOwner") [utf8 "IC0", utf8 "bob"]).1
    "Ownership transfer not permitted by the sender..." (by decide)⟩

/-- Claim C20. For every ledger state and every caller whose attribute
`icidentifier` is `a`, on every error-free scan the elements of the
`queryAllICsAttr` result are an order-preserving sub-sequence of the elements
of the `queryAllICs` result on the same state, each kept element being the
text `queryAllICs` writes for it; the two payloads are equal when the
identifier of every scanned record contains `a`. -/
theorem queryAllICsAttr_sublist_of_queryAllICs (stub : Stub)
    (scanned : List (Bytes × Bytes))
    (hattr : stub.creator.attrs "icidentifier" = Except.ok (some (utf8 "a")))
    (hscan : GetStateByRange stub (utf8 "IC0") (utf8 "IC999") = Except.ok (scanned.map Except.ok)) :
    queryAllICs stub = (Response.success (arrayText scanned), stub) ∧
    (∃ kept : List (Bytes × Bytes),
      queryAllICsAttr stub = (Response.success (arrayText kept), stub) ∧
      kept = scanned.filter
        (fun kv => stringsContains (jsonUnmarshal kv.2 IC.zero).Identifier (utf8 "a")) ∧
      List.Sublist kept scanned ∧
      List.Sublist (kept.map memberText) (scanned.map memberText)) ∧
    ((∀ kv ∈ scanned, stringsContains (jsonUnmarshal kv.2 IC.zero).Identifier (utf8 "a") = true) →
      queryAllICsAttr stub = queryAllICs stub) := by
  obtain ⟨h1, h2⟩ := AssertAttributeValue_a stub hattr
  have hall : queryAllICs stub = (Response.success (arrayText scanned), stub) := by
    simp [queryAllICs, hscan, queryAllICsLoop_ok]
  have hkept : queryAllICsAttr stub =
      (Response.success (arrayText (scanned.filter
        (fun kv => stringsContains (jsonUnmarshal kv.2 IC.zero).Identifier (utf8 "a")))), stub) := by
    simp [queryAllICsAttr, h1, h2, hscan, queryAllICsAttrLoop_filter, queryAllICsLoop_ok]
  refine ⟨hall, ⟨_, hkept, rfl, List.filter_sublist _, (List.filter_sublist _).map _⟩,
    fun hevery => ?_⟩
  rw [hkept, hall, List.filter_eq_self.2 hevery]

set_option maxRecDepth 100000 in
/-- Witness of C20: the seeded ledger, scanned for a caller with
`icidentifier = a`. -/
theorem queryAllICsAttr_sublist_of_queryAllICs_witness :
    GetStateByRange (seededStub org1Alice) (utf8 "IC0") (utf8 "IC999") =
      Except.ok (seedEntries.map Except.ok) ∧
    queryAllICs (seededStub org1Alice) =
      (Response.success (arrayText seedEntries), seededStub org1Alice) :=
  ⟨rfl, (queryAllICsAttr_sublist_of_queryAllICs (seededStub org1Alice) seedEntries rfl
    rfl).1⟩


end TraceIC
